import Mathlib

/-
Shallow embedding of the TiKV transaction command processor
(src/storage/txn/process.rs).

External collaborators (MvccTxn, MvccReader, the lock manager) are modelled
as records of pure functions; calls into them are recorded as events so that
observable effects (commits, rollbacks, wake-ups) can be reasoned about.
Machine integers (u64) are modelled as Nat; the one place where unsigned
wrap-around matters (find_mvcc_infos_by_key) models the subtraction
explicitly.
-/

namespace TikvProcess

instance {ε α : Type} [DecidableEq ε] [DecidableEq α] : DecidableEq (Except ε α) := fun x y =>
  match x, y with
  | .ok a, .ok b =>
    if h : a = b then .isTrue (by rw [h]) else .isFalse (by simp [h])
  | .error a, .error b =>
    if h : a = b then .isTrue (by rw [h]) else .isFalse (by simp [h])
  | .ok _, .error _ => .isFalse (by simp)
  | .error _, .ok _ => .isFalse (by simp)

/-- Keys are opaque byte strings in the source; modelled as Nat tokens. -/
abbrev Key := Nat

abbrev Value := Nat

/-- A mutation of a Prewrite command; its payload is never inspected here. -/
abbrev Mutation := Nat

/-- An engine modification produced by MvccTxn::into_modifies; opaque here. -/
abbrev Modify := Nat

/-- An MVCC write record; opaque at this layer. -/
abbrev WriteRec := Nat

/-- kvproto LockInfo as produced by the read path; opaque token. -/
abbrev LockInfo := Nat

/-- lock_manager::Lock, the descriptor sent with WaitForLock; opaque token. -/
abbrev LmLock := Nat

/-- Request context; only the not_fill_cache flag is consulted by this file. -/
structure Context where
  not_fill_cache : Bool
deriving DecidableEq, Repr

/-- The MVCC lock attached to a key, as seen by ResolveLock; only its
start timestamp is consulted by the processor. -/
structure MvccLock where
  ts : Nat
deriving DecidableEq, Repr

/-- mvcc::ReleasedLock: the descriptor returned by commit/rollback/cleanup
when a lock was freed. -/
structure ReleasedLock where
  hash : Nat
  pessimistic : Bool
deriving DecidableEq, Repr

/-- mvcc::Error; only the KeyIsLocked variant is distinguished by the
processor, every other variant is collapsed into an opaque code. -/
inductive MvccError where
  | KeyIsLocked (info : Nat)
  | Other (code : Nat)
deriving DecidableEq, Repr

/-- txn::Error: wraps MVCC errors and carries InvalidTxnTso. -/
inductive TxnError where
  | Mvcc (e : MvccError)
  | InvalidTxnTso (start_ts commit_ts : Nat)
  | Other (code : Nat)
deriving DecidableEq, Repr

/-- storage::Error: the error type seen by user callbacks. -/
inductive StorageError where
  | Txn (e : TxnError)
deriving DecidableEq, Repr

/-- Prewrite / pessimistic-lock options; only the fields read by
process_write_impl are modelled. -/
structure Options where
  for_update_ts : Nat
  is_pessimistic_lock : List Bool
  is_first_lock : Bool
  wait_timeout : Int
deriving DecidableEq, Repr

/-- The command variants handled by this file.  The three read-only
variants are retained so that the write path's default arm (a panic on
unsupported commands) is representable. -/
inductive Command where
  | Prewrite (ctx : Context) (mutations : List Mutation) (primary : Key)
      (start_ts : Nat) (options : Options)
  | AcquirePessimisticLock (ctx : Context) (keys : List (Key × Bool))
      (primary : Key) (start_ts : Nat) (options : Options)
  | Commit (ctx : Context) (keys : List Key) (lock_ts : Nat) (commit_ts : Nat)
  | Cleanup (ctx : Context) (key : Key) (start_ts : Nat) (current_ts : Nat)
  | Rollback (ctx : Context) (keys : List Key) (start_ts : Nat)
  | PessimisticRollback (ctx : Context) (keys : List Key) (start_ts : Nat)
      (for_update_ts : Nat)
  | ResolveLock (ctx : Context) (txn_status : List (Nat × Nat))
      (scan_key : Option Key) (key_locks : List (Key × MvccLock))
  | ResolveLockLite (ctx : Context) (start_ts : Nat) (commit_ts : Nat)
      (resolve_keys : List Key)
  | TxnHeartBeat (ctx : Context) (primary_key : Key) (start_ts : Nat)
      (advise_ttl : Nat)
  | Pause (ctx : Context) (duration : Nat)
  | MvccByKey (ctx : Context) (key : Key)
  | MvccByStartTs (ctx : Context) (start_ts : Nat)
  | ScanLock (ctx : Context) (max_ts : Nat) (start_key : Option Key) (limit : Nat)
deriving DecidableEq, Repr

/-- MvccInfo returned by the MVCC read path. -/
structure MvccInfo where
  lock : Option MvccLock
  writes : List (Nat × WriteRec)
  values : List (Nat × Value)
deriving DecidableEq, Repr

/-- ProcessResult: the outcome variant delivered to the scheduler and,
eventually, the user callback. -/
inductive ProcessResult where
  | Res
  | MultiRes (results : List (Except StorageError Unit))
  | MvccKey (mvcc : MvccInfo)
  | MvccStartTs (mvcc : Option (Key × MvccInfo))
  | Locks (locks : List LockInfo)
  | TxnStatus (lock_ttl : Nat) (commit_ts : Nat)
  | NextCommand (cmd : Command)
  | Failed (err : StorageError)
deriving DecidableEq, Repr

/-- The six typed storage callback kinds.  The closures themselves are not
modelled; execute_callback instead returns the value that would be passed
to the matching callback. -/
inductive StorageCb where
  | Boolean
  | Booleans
  | MvccInfoByKey
  | MvccInfoByStartTs
  | Locks
  | TxnStatus
deriving DecidableEq, Repr

/-- What execute_callback does: invoke the callback of the given kind with
the given payload, or abort the process on a variant mismatch. -/
inductive CbDelivery where
  | boolean (r : Except StorageError Unit)
  | booleans (r : Except StorageError (List (Except StorageError Unit)))
  | mvccInfoByKey (r : Except StorageError MvccInfo)
  | mvccInfoByStartTs (r : Except StorageError (Option (Key × MvccInfo)))
  | locks (r : Except StorageError (List LockInfo))
  | txnStatus (r : Except StorageError (Nat × Nat))
  | panicked
deriving DecidableEq, Repr

/-- Embedding of execute_callback (process.rs lines 42-78): a finite
dispatch from (callback kind, process result) to the delivered value. -/
def execute_callback : StorageCb → ProcessResult → CbDelivery
  | .Boolean, .Res => .boolean (.ok ())
  | .Boolean, .Failed err => .boolean (.error err)
  | .Boolean, _ => .panicked
  | .Booleans, .MultiRes results => .booleans (.ok results)
  | .Booleans, .Failed err => .booleans (.error err)
  | .Booleans, _ => .panicked
  | .MvccInfoByKey, .MvccKey mvcc => .mvccInfoByKey (.ok mvcc)
  | .MvccInfoByKey, .Failed err => .mvccInfoByKey (.error err)
  | .MvccInfoByKey, _ => .panicked
  | .MvccInfoByStartTs, .MvccStartTs mvcc => .mvccInfoByStartTs (.ok mvcc)
  | .MvccInfoByStartTs, .Failed err => .mvccInfoByStartTs (.error err)
  | .MvccInfoByStartTs, _ => .panicked
  | .Locks, .Locks locks => .locks (.ok locks)
  | .Locks, .Failed err => .locks (.error err)
  | .Locks, _ => .panicked
  | .TxnStatus, .TxnStatus lock_ttl commit_ts => .txnStatus (.ok (lock_ttl, commit_ts))
  | .TxnStatus, .Failed err => .txnStatus (.error err)
  | .TxnStatus, _ => .panicked

/-- The acceptance table of the specification (section 4.6): each callback
kind accepts exactly its matching ProcessResult variant, plus Failed. -/
def accepts : StorageCb → ProcessResult → Bool
  | _, .Failed _ => true
  | .Boolean, .Res => true
  | .Booleans, .MultiRes _ => true
  | .MvccInfoByKey, .MvccKey _ => true
  | .MvccInfoByStartTs, .MvccStartTs _ => true
  | .Locks, .Locks _ => true
  | .TxnStatus, .TxnStatus _ _ => true
  | _, _ => false

/-- The errored delivery for each callback kind. -/
def errDelivery : StorageCb → StorageError → CbDelivery
  | .Boolean, e => .boolean (.error e)
  | .Booleans, e => .booleans (.error e)
  | .MvccInfoByKey, e => .mvccInfoByKey (.error e)
  | .MvccInfoByStartTs, e => .mvccInfoByStartTs (.error e)
  | .Locks, e => .locks (.error e)
  | .TxnStatus, e => .txnStatus (.error e)

/-- Claim C9: execute_callback is a total dispatch over the six callback
kinds: each kind accepts exactly its one matching ProcessResult variant
plus Failed (delivered as Err for every kind); every other pairing,
including NextCommand with any kind, panics. -/
theorem execute_callback_dispatch (cb : StorageCb) (pr : ProcessResult) :
    (execute_callback cb pr = CbDelivery.panicked ↔ accepts cb pr = false)
    ∧ (∀ err, execute_callback cb (ProcessResult.Failed err) = errDelivery cb err)
    ∧ (∀ c, execute_callback cb (ProcessResult.NextCommand c) = CbDelivery.panicked)
    ∧ (∀ results, execute_callback StorageCb.Booleans (ProcessResult.MultiRes results)
        = CbDelivery.booleans (Except.ok results))
    ∧ (execute_callback StorageCb.Boolean ProcessResult.Res
        = CbDelivery.boolean (Except.ok ()))
    ∧ (∀ mvcc, execute_callback StorageCb.MvccInfoByKey (ProcessResult.MvccKey mvcc)
        = CbDelivery.mvccInfoByKey (Except.ok mvcc))
    ∧ (∀ mvcc, execute_callback StorageCb.MvccInfoByStartTs (ProcessResult.MvccStartTs mvcc)
        = CbDelivery.mvccInfoByStartTs (Except.ok mvcc))
    ∧ (∀ ls, execute_callback StorageCb.Locks (ProcessResult.Locks ls)
        = CbDelivery.locks (Except.ok ls))
    ∧ (∀ ttl cts, execute_callback StorageCb.TxnStatus (ProcessResult.TxnStatus ttl cts)
        = CbDelivery.txnStatus (Except.ok (ttl, cts))) := by
  refine ⟨?_, ?_, ?_, ?_, ?_, ?_, ?_, ?_, ?_⟩
  · cases cb <;> cases pr <;> simp [execute_callback, accepts]
  · intro err; cases cb <;> simp [execute_callback, errDelivery]
  · intro c; cases cb <;> simp [execute_callback]
  · intro results; simp [execute_callback]
  · simp [execute_callback]
  · intro mvcc; simp [execute_callback]
  · intro mvcc; simp [execute_callback]
  · intro ls; simp [execute_callback]
  · intro ttl cts; simp [execute_callback]

/-! ## Observable events

Each call into the external MVCC transaction or the lock manager is
recorded, in program order, so that claims about which effects a command
performs (and in which order) can be stated. -/

inductive Event where
  | newTxn (start_ts : Nat) (fill_cache : Bool)
  | evPrewrite (m : Mutation) (primary : Key)
  | evPessimisticPrewrite (m : Mutation) (primary : Key) (is_pess : Bool)
  | evAcquire (k : Key) (should_not_exist : Bool)
  | evCommit (k : Key) (commit_ts : Nat)
  | evRollback (k : Key)
  | evCleanup (k : Key) (current_ts : Nat)
  | evPessimisticRollback (k : Key) (for_update_ts : Nat)
  | evHeartBeat (k : Key) (advise_ttl : Nat)
  | evSetStartTs (ts : Nat)
  | wakeUp (start_ts : Nat) (hashes : List Nat) (commit_ts : Nat) (pessimistic : Bool)
deriving DecidableEq, Repr

/-- The environment of external MVCC-transaction operations over an abstract
transaction state.  Each stateful primitive returns the updated state even
when it reports an error, mirroring `&mut self` receivers. -/
structure MvccEnv (Txn : Type) where
  mkTxn : Nat → Bool → Except MvccError Txn
  prewrite : Txn → Mutation → Key → Options → Txn × Except MvccError Unit
  pessimistic_prewrite : Txn → Mutation → Key → Bool → Options → Txn × Except MvccError Unit
  acquire_pessimistic_lock : Txn → Key → Key → Bool → Options → Txn × Except MvccError Unit
  commit : Txn → Key → Nat → Txn × Except MvccError (Option ReleasedLock)
  rollback : Txn → Key → Txn × Except MvccError (Option ReleasedLock)
  cleanup : Txn → Key → Nat → Txn × Except MvccError (Option ReleasedLock)
  pessimistic_rollback : Txn → Key → Nat → Txn × Except MvccError (Option ReleasedLock)
  txn_heart_beat : Txn → Key → Nat → Txn × Except MvccError Nat
  set_start_ts : Txn → Nat → Txn
  write_size : Txn → Nat
  into_modifies : Txn → List Modify
  extract_lock_from_result : Except StorageError Unit → LmLock

/-- Modelled from the spec: MAX_TXN_WRITE_SIZE is owned by the external MVCC
layer (not part of the processed source file); the spec gives it as the
write-batch byte budget, about 32 KB in practice. -/
def MAX_TXN_WRITE_SIZE : Nat := 32 * 1024

/-! ## ReleasedLocks (process.rs lines 477-509) -/

structure ReleasedLocks where
  start_ts : Nat
  commit_ts : Nat
  hashes : List Nat
  pessimistic : Bool
deriving DecidableEq, Repr

def ReleasedLocks.mk' (start_ts commit_ts : Nat) : ReleasedLocks :=
  { start_ts := start_ts, commit_ts := commit_ts, hashes := [], pessimistic := false }

def ReleasedLocks.push (s : ReleasedLocks) (lock : Option ReleasedLock) : ReleasedLocks :=
  match lock with
  | none => s
  | some lock =>
    { s with
      hashes := s.hashes ++ [lock.hash]
      pessimistic := if s.pessimistic then s.pessimistic else lock.pessimistic }

/-- wake_up: if a lock manager is present, one wake_up call is issued with
the aggregated fields.  The call is returned as an event list. -/
def ReleasedLocks.wake_up (s : ReleasedLocks) (lock_mgr : Bool) : List Event :=
  if lock_mgr then [Event.wakeUp s.start_ts s.hashes s.commit_ts s.pessimistic] else []

/-! ## Write processing (process.rs lines 511-812) -/

structure WriteResult where
  ctx : Context
  to_be_write : List Modify
  rows : Nat
  pr : ProcessResult
  lock_info : Option (LmLock × Bool × Int)
deriving DecidableEq, Repr

/-- Outcome of process_write_impl: a WriteResult, an error returned to the
scheduler, or a process abort (assertion failure / unsupported variant /
missing txn_status entry). -/
inductive WOut where
  | ok (w : WriteResult)
  | err (e : TxnError)
  | panic
deriving DecidableEq, Repr

/-- The per-key KeyIsLocked entry pushed into the locks collector:
Err(e) mapped through txn::Error::from and storage::Error::from. -/
def lockErr (e : MvccError) : Except StorageError Unit :=
  Except.error (StorageError.Txn (TxnError.Mvcc e))

/-- Outcome of the per-mutation collector loops of Prewrite and
AcquirePessimisticLock. -/
inductive CollectOut (Txn : Type) where
  | ok (txn : Txn) (locks : List (Except StorageError Unit))
  | err (e : TxnError)
  | panicked
deriving DecidableEq

/-- Optimistic prewrite loop: KeyIsLocked errors are collected and the loop
continues; any other error aborts the whole command. -/
def prewriteOptLoop {Txn : Type} (env : MvccEnv Txn) (primary : Key) (options : Options)
    (txn : Txn) (locks : List (Except StorageError Unit)) :
    List Mutation → CollectOut Txn × List Event
  | [] => (.ok txn locks, [])
  | m :: ms =>
    match env.prewrite txn m primary options with
    | (txn', .ok _) =>
      let r := prewriteOptLoop env primary options txn' locks ms
      (r.1, Event.evPrewrite m primary :: r.2)
    | (txn', .error (MvccError.KeyIsLocked info)) =>
      let r := prewriteOptLoop env primary options txn'
        (locks ++ [lockErr (MvccError.KeyIsLocked info)]) ms
      (r.1, Event.evPrewrite m primary :: r.2)
    | (_, .error e) => (.err (TxnError.Mvcc e), [Event.evPrewrite m primary])

/-- Pessimistic prewrite loop: indexes options.is_pessimistic_lock; an
out-of-bounds index is the Rust panic. -/
def prewritePessLoop {Txn : Type} (env : MvccEnv Txn) (primary : Key) (options : Options) :
    Nat → Txn → List (Except StorageError Unit) →
    List Mutation → CollectOut Txn × List Event
  | _, txn, locks, [] => (.ok txn locks, [])
  | i, txn, locks, m :: ms =>
    match options.is_pessimistic_lock.get? i with
    | none => (.panicked, [])
    | some is_pess =>
      match env.pessimistic_prewrite txn m primary is_pess options with
      | (txn', .ok _) =>
        let r := prewritePessLoop env primary options (i + 1) txn' locks ms
        (r.1, Event.evPessimisticPrewrite m primary is_pess :: r.2)
      | (txn', .error (MvccError.KeyIsLocked info)) =>
        let r := prewritePessLoop env primary options (i + 1) txn'
          (locks ++ [lockErr (MvccError.KeyIsLocked info)]) ms
        (r.1, Event.evPessimisticPrewrite m primary is_pess :: r.2)
      | (_, .error e) =>
        (.err (TxnError.Mvcc e), [Event.evPessimisticPrewrite m primary is_pess])

/-- AcquirePessimisticLock loop: the first KeyIsLocked breaks the loop. -/
def acquireLoop {Txn : Type} (env : MvccEnv Txn) (primary : Key) (options : Options)
    (txn : Txn) (locks : List (Except StorageError Unit)) :
    List (Key × Bool) → CollectOut Txn × List Event
  | [] => (.ok txn locks, [])
  | (k, should_not_exist) :: ks =>
    match env.acquire_pessimistic_lock txn k primary should_not_exist options with
    | (txn', .ok _) =>
      let r := acquireLoop env primary options txn' locks ks
      (r.1, Event.evAcquire k should_not_exist :: r.2)
    | (txn', .error (MvccError.KeyIsLocked info)) =>
      (.ok txn' (locks ++ [lockErr (MvccError.KeyIsLocked info)]),
        [Event.evAcquire k should_not_exist])
    | (_, .error e) => (.err (TxnError.Mvcc e), [Event.evAcquire k should_not_exist])

/-- Shared shape of the per-key release loops (Commit, Rollback,
PessimisticRollback, ResolveLockLite): run a step per key, push the released
lock, abort on the first error. -/
def releaseLoop {Txn : Type}
    (step : Txn → Key → Txn × Except MvccError (Option ReleasedLock))
    (ev : Key → Event) (txn : Txn) (s : ReleasedLocks) :
    List Key → (Sum TxnError (Txn × ReleasedLocks)) × List Event
  | [] => (.inr (txn, s), [])
  | k :: ks =>
    match step txn k with
    | (txn', .ok released) =>
      let r := releaseLoop step ev txn' (s.push released) ks
      (r.1, ev k :: r.2)
    | (_, .error e) => (.inl (TxnError.Mvcc e), [ev k])

/-- Association-list lookup for the txn_status map of ResolveLock. -/
def lookupTs : List (Nat × Nat) → Nat → Option Nat
  | [], _ => none
  | (k, v) :: rest, ts => if k = ts then some v else lookupTs rest ts

/-- HashMap entry(ts).or_insert_with(ReleasedLocks::new(ts, commit_ts)).push(rel),
on an association list keeping first-insertion order. -/
def updateReleased (m : List (Nat × ReleasedLocks)) (ts commit_ts : Nat)
    (rel : Option ReleasedLock) : List (Nat × ReleasedLocks) :=
  match m with
  | [] => [(ts, (ReleasedLocks.mk' ts commit_ts).push rel)]
  | (k, s) :: rest =>
    if k = ts then (k, s.push rel) :: rest
    else (k, s) :: updateReleased rest ts commit_ts rel

/-- Outcome of the ResolveLock per-pair loop. -/
inductive ResolveOut (Txn : Type) where
  | ok (txn : Txn) (scan_key : Option Key) (released : List (Nat × ReleasedLocks))
  | err (e : TxnError)
  | panicked
deriving DecidableEq

/-- ResolveLock write-half loop (process.rs lines 711-736): per pair set the
txn start_ts, look up commit_ts (missing entry aborts the process), rollback
when 0, commit when commit_ts > lock.ts, otherwise InvalidTxnTso; after a
processed pair, stop when write_size reaches MAX_TXN_WRITE_SIZE, remembering
the current key as the next scan_key. -/
def resolveLoop {Txn : Type} (env : MvccEnv Txn) (txn_status : List (Nat × Nat))
    (txn : Txn) (released : List (Nat × ReleasedLocks)) (scan_key : Option Key) :
    List (Key × MvccLock) → ResolveOut Txn × List Event
  | [] => (.ok txn scan_key released, [])
  | (current_key, current_lock) :: rest =>
    let txn1 := env.set_start_ts txn current_lock.ts
    match lookupTs txn_status current_lock.ts with
    | none => (.panicked, [Event.evSetStartTs current_lock.ts])
    | some commit_ts =>
      if commit_ts = 0 then
        match env.rollback txn1 current_key with
        | (txn2, .ok rel) =>
          let released' := updateReleased released current_lock.ts commit_ts rel
          if MAX_TXN_WRITE_SIZE ≤ env.write_size txn2 then
            (.ok txn2 (some current_key) released',
              [Event.evSetStartTs current_lock.ts, Event.evRollback current_key])
          else
            let r := resolveLoop env txn_status txn2 released' scan_key rest
            (r.1, Event.evSetStartTs current_lock.ts :: Event.evRollback current_key :: r.2)
        | (_, .error e) =>
          (.err (TxnError.Mvcc e),
            [Event.evSetStartTs current_lock.ts, Event.evRollback current_key])
      else if current_lock.ts < commit_ts then
        match env.commit txn1 current_key commit_ts with
        | (txn2, .ok rel) =>
          let released' := updateReleased released current_lock.ts commit_ts rel
          if MAX_TXN_WRITE_SIZE ≤ env.write_size txn2 then
            (.ok txn2 (some current_key) released',
              [Event.evSetStartTs current_lock.ts, Event.evCommit current_key commit_ts])
          else
            let r := resolveLoop env txn_status txn2 released' scan_key rest
            (r.1, Event.evSetStartTs current_lock.ts
              :: Event.evCommit current_key commit_ts :: r.2)
        | (_, .error e) =>
          (.err (TxnError.Mvcc e),
            [Event.evSetStartTs current_lock.ts, Event.evCommit current_key commit_ts])
      else
        (.err (TxnError.InvalidTxnTso current_lock.ts commit_ts),
          [Event.evSetStartTs current_lock.ts])

/-- Embedding of process_write_impl (process.rs lines 520-812).  Returns the
outcome together with the ordered list of external calls performed. -/
def process_write_impl {Txn : Type} (env : MvccEnv Txn) (cmd : Command)
    (lock_mgr : Bool) : WOut × List Event :=
  match cmd with
  | Command.Prewrite ctx mutations primary start_ts options =>
    match env.mkTxn start_ts (!ctx.not_fill_cache) with
    | .error e => (.err (TxnError.Mvcc e), [Event.newTxn start_ts (!ctx.not_fill_cache)])
    | .ok txn =>
      let rows := mutations.length
      let r :=
        if options.for_update_ts = 0 then
          prewriteOptLoop env primary options txn [] mutations
        else
          prewritePessLoop env primary options 0 txn [] mutations
      let log := Event.newTxn start_ts (!ctx.not_fill_cache) :: r.2
      match r.1 with
      | .panicked => (.panic, log)
      | .err e => (.err e, log)
      | .ok txn' locks =>
        if locks.isEmpty then
          (.ok ⟨ctx, env.into_modifies txn', rows, ProcessResult.MultiRes [], none⟩, log)
        else
          (.ok ⟨ctx, [], 0, ProcessResult.MultiRes locks, none⟩, log)
  | Command.AcquirePessimisticLock ctx keys primary start_ts options =>
    match env.mkTxn start_ts (!ctx.not_fill_cache) with
    | .error e => (.err (TxnError.Mvcc e), [Event.newTxn start_ts (!ctx.not_fill_cache)])
    | .ok txn =>
      let rows := keys.length
      let r := acquireLoop env primary options txn [] keys
      let log := Event.newTxn start_ts (!ctx.not_fill_cache) :: r.2
      match r.1 with
      | .panicked => (.panic, log)
      | .err e => (.err e, log)
      | .ok txn' locks =>
        match locks with
        | [] =>
          (.ok ⟨ctx, env.into_modifies txn', rows, ProcessResult.MultiRes [], none⟩, log)
        | l0 :: _ =>
          let lock := env.extract_lock_from_result l0
          (.ok ⟨ctx, [], 0, ProcessResult.MultiRes locks,
            some (lock, options.is_first_lock, options.wait_timeout)⟩, log)
  | Command.Commit ctx keys lock_ts commit_ts =>
    if commit_ts ≤ lock_ts then
      (.err (TxnError.InvalidTxnTso lock_ts commit_ts), [])
    else
      match env.mkTxn lock_ts (!ctx.not_fill_cache) with
      | .error e => (.err (TxnError.Mvcc e), [Event.newTxn lock_ts (!ctx.not_fill_cache)])
      | .ok txn =>
        let rows := keys.length
        let r := releaseLoop (fun t k => env.commit t k commit_ts)
          (fun k => Event.evCommit k commit_ts) txn
          (ReleasedLocks.mk' lock_ts commit_ts) keys
        let log := Event.newTxn lock_ts (!ctx.not_fill_cache) :: r.2
        match r.1 with
        | .inl e => (.err e, log)
        | .inr (txn', s) =>
          (.ok ⟨ctx, env.into_modifies txn', rows, ProcessResult.Res, none⟩,
            log ++ s.wake_up lock_mgr)
  | Command.Cleanup ctx key start_ts current_ts =>
    match env.mkTxn start_ts (!ctx.not_fill_cache) with
    | .error e => (.err (TxnError.Mvcc e), [Event.newTxn start_ts (!ctx.not_fill_cache)])
    | .ok txn =>
      match env.cleanup txn key current_ts with
      | (_, .error e) =>
        (.err (TxnError.Mvcc e),
          [Event.newTxn start_ts (!ctx.not_fill_cache), Event.evCleanup key current_ts])
      | (txn', .ok released) =>
        let s := (ReleasedLocks.mk' start_ts 0).push released
        (.ok ⟨ctx, env.into_modifies txn', 1, ProcessResult.Res, none⟩,
          [Event.newTxn start_ts (!ctx.not_fill_cache), Event.evCleanup key current_ts]
            ++ s.wake_up lock_mgr)
  | Command.Rollback ctx keys start_ts =>
    match env.mkTxn start_ts (!ctx.not_fill_cache) with
    | .error e => (.err (TxnError.Mvcc e), [Event.newTxn start_ts (!ctx.not_fill_cache)])
    | .ok txn =>
      let rows := keys.length
      let r := releaseLoop env.rollback Event.evRollback txn
        (ReleasedLocks.mk' start_ts 0) keys
      let log := Event.newTxn start_ts (!ctx.not_fill_cache) :: r.2
      match r.1 with
      | .inl e => (.err e, log)
      | .inr (txn', s) =>
        (.ok ⟨ctx, env.into_modifies txn', rows, ProcessResult.Res, none⟩,
          log ++ s.wake_up lock_mgr)
  | Command.PessimisticRollback ctx keys start_ts for_update_ts =>
    if !lock_mgr then (.panic, [])
    else
      match env.mkTxn start_ts (!ctx.not_fill_cache) with
      | .error e => (.err (TxnError.Mvcc e), [Event.newTxn start_ts (!ctx.not_fill_cache)])
      | .ok txn =>
        let rows := keys.length
        let r := releaseLoop (fun t k => env.pessimistic_rollback t k for_update_ts)
          (fun k => Event.evPessimisticRollback k for_update_ts) txn
          (ReleasedLocks.mk' start_ts 0) keys
        let log := Event.newTxn start_ts (!ctx.not_fill_cache) :: r.2
        match r.1 with
        | .inl e => (.err e, log)
        | .inr (txn', s) =>
          (.ok ⟨ctx, env.into_modifies txn', rows, ProcessResult.MultiRes [], none⟩,
            log ++ s.wake_up lock_mgr)
  | Command.ResolveLock ctx txn_status scan_key key_locks =>
    match env.mkTxn 0 (!ctx.not_fill_cache) with
    | .error e => (.err (TxnError.Mvcc e), [Event.newTxn 0 (!ctx.not_fill_cache)])
    | .ok txn =>
      let rows := key_locks.length
      let r := resolveLoop env txn_status txn [] scan_key key_locks
      let log := Event.newTxn 0 (!ctx.not_fill_cache) :: r.2
      match r.1 with
      | .panicked => (.panic, log)
      | .err e => (.err e, log)
      | .ok txn' scan_key' released =>
        let wlog := released.foldr (fun p acc => p.2.wake_up lock_mgr ++ acc) []
        let pr := match scan_key' with
          | none => ProcessResult.Res
          | some k =>
            ProcessResult.NextCommand (Command.ResolveLock ctx txn_status (some k) [])
        (.ok ⟨ctx, env.into_modifies txn', rows, pr, none⟩, log ++ wlog)
  | Command.ResolveLockLite ctx start_ts commit_ts resolve_keys =>
    match env.mkTxn start_ts (!ctx.not_fill_cache) with
    | .error e => (.err (TxnError.Mvcc e), [Event.newTxn start_ts (!ctx.not_fill_cache)])
    | .ok txn =>
      let rows := resolve_keys.length
      let r := releaseLoop
        (fun t k => if 0 < commit_ts then env.commit t k commit_ts else env.rollback t k)
        (fun k => if 0 < commit_ts then Event.evCommit k commit_ts else Event.evRollback k)
        txn (ReleasedLocks.mk' start_ts commit_ts) resolve_keys
      let log := Event.newTxn start_ts (!ctx.not_fill_cache) :: r.2
      match r.1 with
      | .inl e => (.err e, log)
      | .inr (txn', s) =>
        (.ok ⟨ctx, env.into_modifies txn', rows, ProcessResult.Res, none⟩,
          log ++ s.wake_up lock_mgr)
  | Command.TxnHeartBeat ctx primary_key start_ts advise_ttl =>
    match env.mkTxn start_ts (!ctx.not_fill_cache) with
    | .error e => (.err (TxnError.Mvcc e), [Event.newTxn start_ts (!ctx.not_fill_cache)])
    | .ok txn =>
      match env.txn_heart_beat txn primary_key advise_ttl with
      | (_, .error e) =>
        (.err (TxnError.Mvcc e),
          [Event.newTxn start_ts (!ctx.not_fill_cache),
            Event.evHeartBeat primary_key advise_ttl])
      | (txn', .ok lock_ttl) =>
        (.ok ⟨ctx, env.into_modifies txn', 1, ProcessResult.TxnStatus lock_ttl 0, none⟩,
          [Event.newTxn start_ts (!ctx.not_fill_cache),
            Event.evHeartBeat primary_key advise_ttl])
  | Command.Pause ctx _ => (.ok ⟨ctx, [], 0, ProcessResult.Res, none⟩, [])
  | Command.MvccByKey _ _ => (.panic, [])
  | Command.MvccByStartTs _ _ => (.panic, [])
  | Command.ScanLock _ _ _ _ => (.panic, [])

/-! ## Orchestrator hand-off (process.rs lines 253-340) -/

inductive Msg where
  | ReadFinished (cid : Nat) (pr : ProcessResult)
  | WriteFinished (cid : Nat) (pr : ProcessResult) (ok : Bool)
  | FinishedWithErr (cid : Nat) (e : TxnError)
  | WaitForLock (cid : Nat) (start_ts : Nat) (pr : ProcessResult) (lock : LmLock)
      (is_first_lock : Bool) (wait_timeout : Int)
deriving DecidableEq, Repr

/-- The four ways Executor::process_write routes a write outcome: a
WaitForLock message, an immediate WriteFinished when there is nothing to
persist, an engine async_write submission, or a FinishedWithErr. -/
inductive HandOff where
  | posted (msg : Msg)
  | engineAsyncWrite (ctx : Context) (to_be_write : List Modify)
  | aborted
deriving DecidableEq, Repr

def process_write_route (cid ts : Nat) (out : WOut) : HandOff :=
  match out with
  | .panic => .aborted
  | .err e => .posted (Msg.FinishedWithErr cid e)
  | .ok w =>
    match w.lock_info with
    | some (lock, is_first_lock, wait_timeout) =>
      .posted (Msg.WaitForLock cid ts w.pr lock is_first_lock wait_timeout)
    | none =>
      if w.to_be_write.isEmpty then .posted (Msg.WriteFinished cid w.pr true)
      else .engineAsyncWrite w.ctx w.to_be_write

/-! ## Concrete environments used to evaluate the development on closed
inputs.  The transaction state is a counter of successful mutations; keys
(and mutations) numbered 100 behave as already locked, 200 as hitting a
fatal MVCC error. -/

def ctx0 : Context := ⟨false⟩

def envT : MvccEnv Nat where
  mkTxn := fun _ _ => .ok 1
  prewrite := fun t m _ _ =>
    if m = 100 then (t, .error (MvccError.KeyIsLocked m))
    else if m = 200 then (t, .error (MvccError.Other m))
    else (t + 1, .ok ())
  pessimistic_prewrite := fun t m _ _ _ =>
    if m = 100 then (t, .error (MvccError.KeyIsLocked m))
    else if m = 200 then (t, .error (MvccError.Other m))
    else (t + 1, .ok ())
  acquire_pessimistic_lock := fun t k _ _ _ =>
    if k = 100 then (t, .error (MvccError.KeyIsLocked k))
    else if k = 200 then (t, .error (MvccError.Other k))
    else (t + 1, .ok ())
  commit := fun t k _ =>
    if k = 200 then (t, .error (MvccError.Other k))
    else (t + 1, .ok (some ⟨10 * k, k % 2 = 1⟩))
  rollback := fun t k =>
    if k = 200 then (t, .error (MvccError.Other k))
    else (t + 1, .ok (some ⟨10 * k + 1, false⟩))
  cleanup := fun t k _ => (t + 1, .ok (some ⟨10 * k + 2, false⟩))
  pessimistic_rollback := fun t k _ => (t + 1, .ok (some ⟨10 * k + 3, true⟩))
  txn_heart_beat := fun t _ ttl => (t, .ok ttl)
  set_start_ts := fun t _ => t
  write_size := fun t => t
  into_modifies := fun t => List.range t
  extract_lock_from_result := fun _ => 42

/-- Like envT but with a large per-mutation write size, so that the
ResolveLock batch cutoff fires after the first processed key. -/
def envC : MvccEnv Nat :=
  { envT with write_size := fun t => 20000 * t }

/-- Claim C7: for every command and every input, an ok WriteResult with
lock_info present has an empty to_be_write and rows = 0. -/
theorem write_result_lock_info_invariant {Txn : Type} (env : MvccEnv Txn)
    (cmd : Command) (lm : Bool) (w : WriteResult)
    (hok : (process_write_impl env cmd lm).1 = WOut.ok w)
    (hsome : w.lock_info.isSome) :
    w.to_be_write = [] ∧ w.rows = 0 := by
  cases cmd <;> simp only [process_write_impl] at hok <;>
    (repeat' split at hok) <;> (try cases hok) <;> simp_all

/-- Witness for C7: a concrete AcquirePessimisticLock run that hits a lock
conflict, so that lock_info is present. -/
theorem write_result_lock_info_invariant_witness :
    ([] : List Modify) = [] ∧ (0 : Nat) = 0 :=
  write_result_lock_info_invariant envT
    (Command.AcquirePessimisticLock ctx0 [(1, false), (100, true), (2, false)] 1 5
      ⟨0, [], true, 9⟩)
    true
    ⟨ctx0, [], 0,
      ProcessResult.MultiRes [lockErr (MvccError.KeyIsLocked 100)],
      some (42, true, 9)⟩
    (by rfl) (by rfl)

/-! ## Traces of the per-key release loops

The trace functions evaluate the per-key step on every key, threading the
transaction state, without the loop's early exit.  The loop agrees with its
trace on the prefix it actually runs; the correspondence lemmas below make
that precise. -/

def isErr {ε α : Type} : Except ε α → Bool
  | .error _ => true
  | .ok _ => false

/-- Result of the step on each key, in order, with the state threaded. -/
def releaseResults {Txn : Type}
    (step : Txn → Key → Txn × Except MvccError (Option ReleasedLock)) :
    Txn → List Key → List (Except MvccError (Option ReleasedLock))
  | _, [] => []
  | txn, k :: ks => (step txn k).2 :: releaseResults step (step txn k).1 ks

/-- The transaction state after stepping through all keys. -/
def releaseFinal {Txn : Type}
    (step : Txn → Key → Txn × Except MvccError (Option ReleasedLock)) :
    Txn → List Key → Txn
  | txn, [] => txn
  | txn, k :: ks => releaseFinal step (step txn k).1 ks

/-- The released-lock descriptors of the successful steps. -/
def okReleased : List (Except MvccError (Option ReleasedLock)) → List (Option ReleasedLock)
  | [] => []
  | .ok o :: rs => o :: okReleased rs
  | .error _ :: rs => okReleased rs

/-- Pushing a list of released locks into an aggregator. -/
def pushAll (s : ReleasedLocks) (os : List (Option ReleasedLock)) : ReleasedLocks :=
  os.foldl ReleasedLocks.push s

theorem pushAll_start_ts (os : List (Option ReleasedLock)) :
    ∀ s : ReleasedLocks, (pushAll s os).start_ts = s.start_ts
      ∧ (pushAll s os).commit_ts = s.commit_ts := by
  induction os with
  | nil => intro s; simp [pushAll]
  | cons o os ih =>
    intro s
    have := ih (s.push o)
    cases o <;> simp_all [pushAll, ReleasedLocks.push]

/-- push appends the hash exactly when a lock was released, and ORs the
pessimistic flags of the freed locks. -/
theorem pushAll_spec (os : List (Option ReleasedLock)) :
    ∀ s : ReleasedLocks,
      (pushAll s os).hashes = s.hashes ++ (os.filterMap id).map ReleasedLock.hash
      ∧ (pushAll s os).pessimistic
          = (s.pessimistic || (os.filterMap id).any ReleasedLock.pessimistic) := by
  induction os with
  | nil => intro s; simp [pushAll]
  | cons o os ih =>
    intro s
    have h := ih (s.push o)
    cases o with
    | none => simpa [pushAll, ReleasedLocks.push] using h
    | some l =>
      rcases h with ⟨h1, h2⟩
      constructor
      · simpa [pushAll, ReleasedLocks.push] using h1
      · rw [show pushAll s (some l :: os) = pushAll (s.push l) os from rfl] at *
        rw [h2]
        cases hs : s.pessimistic <;> cases hl : l.pessimistic <;>
          simp [ReleasedLocks.push, hs, hl]

/-- The release loop, when every step succeeds, processes every key in
order, aggregates every freed lock, and nothing else. -/
theorem releaseLoop_ok {Txn : Type}
    (step : Txn → Key → Txn × Except MvccError (Option ReleasedLock))
    (ev : Key → Event) (keys : List Key) :
    ∀ (txn : Txn) (s : ReleasedLocks),
    (∀ r ∈ releaseResults step txn keys, isErr r = false) →
    releaseLoop step ev txn s keys
      = (Sum.inr (releaseFinal step txn keys,
          pushAll s (okReleased (releaseResults step txn keys))),
         keys.map ev) := by
  induction keys with
  | nil =>
    intro txn s _
    simp [releaseLoop, releaseResults, releaseFinal, okReleased, pushAll]
  | cons k ks ih =>
    intro txn s h
    have h0 := h ((step txn k).2) (by simp [releaseResults])
    rcases hs : step txn k with ⟨txn', r⟩
    cases r with
    | error e => rw [hs] at h0; simp [isErr] at h0
    | ok released =>
      have hres : releaseResults step txn (k :: ks)
          = Except.ok released :: releaseResults step txn' ks := by
        simp [releaseResults, hs]
      have hfin : releaseFinal step txn (k :: ks) = releaseFinal step txn' ks := by
        simp [releaseFinal, hs]
      rw [hres] at h
      have htl : ∀ r ∈ releaseResults step txn' ks, isErr r = false := by
        intro r hr; exact h r (List.mem_cons_of_mem _ hr)
      have := ih txn' (s.push released) htl
      simp only [releaseLoop]
      rw [hs]
      simp only [this, hres, hfin, okReleased, pushAll, List.foldl_cons, List.map_cons]

/-- Claim C2: Commit with commit_ts <= lock_ts fails with InvalidTxnTso
before any external call (no MvccTxn is built, no key committed, no wake_up
issued, for every environment); with commit_ts > lock_ts every key is
committed in order and the result is Res with rows = number of keys. -/
theorem commit_monotonicity {Txn : Type} (ctx : Context) (keys : List Key)
    (lock_ts commit_ts : Nat) :
    (commit_ts ≤ lock_ts →
      ∀ (env : MvccEnv Txn) (lm : Bool),
        process_write_impl env (Command.Commit ctx keys lock_ts commit_ts) lm
          = (WOut.err (TxnError.InvalidTxnTso lock_ts commit_ts), []))
    ∧ (lock_ts < commit_ts →
      ∀ (env : MvccEnv Txn) (lm : Bool) (txn : Txn),
        env.mkTxn lock_ts (!ctx.not_fill_cache) = Except.ok txn →
        (∀ r ∈ releaseResults (fun t k => env.commit t k commit_ts) txn keys,
          isErr r = false) →
        process_write_impl env (Command.Commit ctx keys lock_ts commit_ts) lm
          = (WOut.ok ⟨ctx,
              env.into_modifies
                (releaseFinal (fun t k => env.commit t k commit_ts) txn keys),
              keys.length, ProcessResult.Res, none⟩,
             Event.newTxn lock_ts (!ctx.not_fill_cache)
               :: keys.map (fun k => Event.evCommit k commit_ts)
               ++ (pushAll (ReleasedLocks.mk' lock_ts commit_ts)
                    (okReleased (releaseResults
                      (fun t k => env.commit t k commit_ts) txn keys))).wake_up lm)) := by
  constructor
  · intro hle env lm
    simp [process_write_impl, hle]
  · intro hlt env lm txn hnew hok
    have hnle : ¬ commit_ts ≤ lock_ts := by omega
    simp only [process_write_impl, if_neg hnle, hnew]
    rw [releaseLoop_ok _ _ keys txn (ReleasedLocks.mk' lock_ts commit_ts) hok]

/-- Witness for C2: both branches exercised on concrete inputs. -/
theorem commit_monotonicity_witness :
    (process_write_impl envT (Command.Commit ctx0 [3] 7 7) true
      = (WOut.err (TxnError.InvalidTxnTso 7 7), []))
    ∧ (process_write_impl envT (Command.Commit ctx0 [3, 5] 7 9) true
      = (WOut.ok ⟨ctx0, [0, 1, 2], 2, ProcessResult.Res, none⟩,
         [Event.newTxn 7 true, Event.evCommit 3 9, Event.evCommit 5 9,
          Event.wakeUp 7 [30, 50] 9 true])) := by
  constructor
  · exact (commit_monotonicity ctx0 [3] 7 7).1 (by decide) envT true
  · have h := (commit_monotonicity ctx0 [3, 5] 7 9).2 (by decide) envT true 1
      (by rfl) (by decide)
    rw [h]
    rfl

/-! ## Prewrite traces (claim C1) -/

/-- A per-mutation result is fatal when it is an error other than
KeyIsLocked: such an error aborts the whole Prewrite. -/
def isFatal : Except MvccError Unit → Bool
  | .ok _ => false
  | .error (MvccError.KeyIsLocked _) => false
  | .error _ => true

def errOf : Except MvccError Unit → MvccError
  | .error e => e
  | .ok _ => MvccError.Other 0

/-- The KeyIsLocked entries of a result trace, mapped to the storage-level
errors the collector stores, in order. -/
def collectLocks : List (Except MvccError Unit) → List (Except StorageError Unit)
  | [] => []
  | .error (MvccError.KeyIsLocked info) :: rs =>
    lockErr (MvccError.KeyIsLocked info) :: collectLocks rs
  | _ :: rs => collectLocks rs

/-- Per-mutation results of the optimistic path, state threaded. -/
def prewriteResultsOpt {Txn : Type} (env : MvccEnv Txn) (primary : Key)
    (options : Options) : Txn → List Mutation → List (Except MvccError Unit)
  | _, [] => []
  | txn, m :: ms =>
    (env.prewrite txn m primary options).2
      :: prewriteResultsOpt env primary options (env.prewrite txn m primary options).1 ms

def prewriteFinalOpt {Txn : Type} (env : MvccEnv Txn) (primary : Key)
    (options : Options) : Txn → List Mutation → Txn
  | txn, [] => txn
  | txn, m :: ms =>
    prewriteFinalOpt env primary options (env.prewrite txn m primary options).1 ms

/-- Per-mutation results of the pessimistic path, indexed from i. -/
def prewriteResultsPess {Txn : Type} (env : MvccEnv Txn) (primary : Key)
    (options : Options) : Nat → Txn → List Mutation → List (Except MvccError Unit)
  | _, _, [] => []
  | i, txn, m :: ms =>
    (env.pessimistic_prewrite txn m primary
        (options.is_pessimistic_lock.getD i false) options).2
      :: prewriteResultsPess env primary options (i + 1)
        (env.pessimistic_prewrite txn m primary
          (options.is_pessimistic_lock.getD i false) options).1 ms

def prewriteFinalPess {Txn : Type} (env : MvccEnv Txn) (primary : Key)
    (options : Options) : Nat → Txn → List Mutation → Txn
  | _, txn, [] => txn
  | i, txn, m :: ms =>
    prewriteFinalPess env primary options (i + 1)
      (env.pessimistic_prewrite txn m primary
        (options.is_pessimistic_lock.getD i false) options).1 ms

theorem getD_of_get? {α : Type} {l : List α} {i : Nat} {b : α} (d : α)
    (h : l.get? i = some b) : l.getD i d = b := by
  rw [List.getD_eq_get?, h]
  rfl

theorem prewriteOptLoop_clean {Txn : Type} (env : MvccEnv Txn) (primary : Key)
    (options : Options) (ms : List Mutation) :
    ∀ (txn : Txn) (acc : List (Except StorageError Unit)),
    (∀ r ∈ prewriteResultsOpt env primary options txn ms, isFatal r = false) →
    prewriteOptLoop env primary options txn acc ms
      = (CollectOut.ok (prewriteFinalOpt env primary options txn ms)
          (acc ++ collectLocks (prewriteResultsOpt env primary options txn ms)),
         ms.map (fun m => Event.evPrewrite m primary)) := by
  induction ms with
  | nil =>
    intro txn acc _
    simp [prewriteOptLoop, prewriteResultsOpt, prewriteFinalOpt, collectLocks]
  | cons m ms ih =>
    intro txn acc h
    have h0 := h ((env.prewrite txn m primary options).2)
      (by rw [show prewriteResultsOpt env primary options txn (m :: ms)
          = (env.prewrite txn m primary options).2
            :: prewriteResultsOpt env primary options
              (env.prewrite txn m primary options).1 ms from rfl]
          exact List.mem_cons_self _ _)
    rcases hs : env.prewrite txn m primary options with ⟨txn', r⟩
    have hres : prewriteResultsOpt env primary options txn (m :: ms)
        = r :: prewriteResultsOpt env primary options txn' ms := by
      simp [prewriteResultsOpt, hs]
    have hfin : prewriteFinalOpt env primary options txn (m :: ms)
        = prewriteFinalOpt env primary options txn' ms := by
      simp [prewriteFinalOpt, hs]
    rw [hres] at h
    have htl := fun r hr => h r (List.mem_cons_of_mem _ hr)
    rw [hs] at h0
    simp only at h0
    cases r with
    | ok u =>
      simp only [prewriteOptLoop]
      rw [hs]
      simp only [ih txn' acc htl, hres, hfin, collectLocks, List.map_cons]
    | error e =>
      cases e with
      | KeyIsLocked info =>
        simp only [prewriteOptLoop]
        rw [hs]
        simp only [ih txn' (acc ++ [lockErr (MvccError.KeyIsLocked info)]) htl,
          hres, hfin, collectLocks, List.map_cons, List.append_assoc,
          List.singleton_append]
      | Other c => simp [isFatal] at h0

theorem prewriteOptLoop_fatal {Txn : Type} (env : MvccEnv Txn) (primary : Key)
    (options : Options) (ms : List Mutation) :
    ∀ (txn : Txn) (acc : List (Except StorageError Unit)) (j : Nat)
      (r : Except MvccError Unit),
    (prewriteResultsOpt env primary options txn ms).get? j = some r →
    isFatal r = true →
    (∀ i ri, i < j →
      (prewriteResultsOpt env primary options txn ms).get? i = some ri →
      isFatal ri = false) →
    prewriteOptLoop env primary options txn acc ms
      = (CollectOut.err (TxnError.Mvcc (errOf r)),
         (ms.take (j + 1)).map (fun m => Event.evPrewrite m primary)) := by
  induction ms with
  | nil => intro txn acc j r hj _ _; simp [prewriteResultsOpt] at hj
  | cons m ms ih =>
    intro txn acc j r hj hfat hpre
    rcases hs : env.prewrite txn m primary options with ⟨txn', r0⟩
    have hres : prewriteResultsOpt env primary options txn (m :: ms)
        = r0 :: prewriteResultsOpt env primary options txn' ms := by
      simp [prewriteResultsOpt, hs]
    rw [hres] at hj hpre
    cases j with
    | zero =>
      have hr : r0 = r := by simpa using hj
      subst hr
      cases r0 with
      | ok u => simp [isFatal] at hfat
      | error e =>
        cases e with
        | KeyIsLocked info => simp [isFatal] at hfat
        | Other c =>
          simp only [prewriteOptLoop]
          rw [hs]
          simp [errOf, List.take]
    | succ j' =>
      have h0 : isFatal r0 = false := hpre 0 r0 (Nat.succ_pos _) rfl
      have hj' : (prewriteResultsOpt env primary options txn' ms).get? j' = some r := hj
      have hpre' : ∀ i ri, i < j' →
          (prewriteResultsOpt env primary options txn' ms).get? i = some ri →
          isFatal ri = false := by
        intro i ri hi hget
        exact hpre (i + 1) ri (by omega) hget
      cases r0 with
      | ok u =>
        simp only [prewriteOptLoop]
        rw [hs]
        simp only [ih txn' acc j' r hj' hfat hpre', List.take_succ_cons, List.map_cons]
      | error e =>
        cases e with
        | KeyIsLocked info =>
          simp only [prewriteOptLoop]
          rw [hs]
          simp only [ih txn' (acc ++ [lockErr (MvccError.KeyIsLocked info)]) j' r hj'
            hfat hpre', List.take_succ_cons, List.map_cons]
        | Other c => simp [isFatal] at h0

theorem prewritePessLoop_clean {Txn : Type} (env : MvccEnv Txn) (primary : Key)
    (options : Options) (ms : List Mutation) :
    ∀ (i : Nat) (txn : Txn) (acc : List (Except StorageError Unit)),
    i + ms.length ≤ options.is_pessimistic_lock.length →
    (∀ r ∈ prewriteResultsPess env primary options i txn ms, isFatal r = false) →
    (prewritePessLoop env primary options i txn acc ms).1
      = CollectOut.ok (prewriteFinalPess env primary options i txn ms)
          (acc ++ collectLocks (prewriteResultsPess env primary options i txn ms)) := by
  induction ms with
  | nil =>
    intro i txn acc _ _
    simp [prewritePessLoop, prewriteResultsPess, prewriteFinalPess, collectLocks]
  | cons m ms ih =>
    intro i txn acc hlen h
    have hi : i < options.is_pessimistic_lock.length := by
      simp [List.length_cons] at hlen; omega
    have hb : options.is_pessimistic_lock.get? i
        = some (options.is_pessimistic_lock.get ⟨i, hi⟩) := List.get?_eq_get hi
    set b := options.is_pessimistic_lock.get ⟨i, hi⟩ with hbdef
    have hbd : options.is_pessimistic_lock.getD i false = b := getD_of_get? false hb
    rcases hs : env.pessimistic_prewrite txn m primary b options with ⟨txn', r⟩
    have hres : prewriteResultsPess env primary options i txn (m :: ms)
        = r :: prewriteResultsPess env primary options (i + 1) txn' ms := by
      simp only [prewriteResultsPess]
      rw [hbd, hs]
    have hfin : prewriteFinalPess env primary options i txn (m :: ms)
        = prewriteFinalPess env primary options (i + 1) txn' ms := by
      simp only [prewriteFinalPess]
      rw [hbd, hs]
    rw [hres] at h
    have htl := fun r hr => h r (List.mem_cons_of_mem _ hr)
    have hlen' : (i + 1) + ms.length ≤ options.is_pessimistic_lock.length := by
      simp [List.length_cons] at hlen; omega
    have h0' : isFatal r = false := h r (List.mem_cons_self _ _)
    cases r with
    | ok u =>
      simp only [prewritePessLoop, hb, hs]
      simp only [ih (i + 1) txn' acc hlen' htl, hres, hfin, collectLocks]
    | error e =>
      cases e with
      | KeyIsLocked info =>
        simp only [prewritePessLoop, hb, hs]
        simp only [ih (i + 1) txn' (acc ++ [lockErr (MvccError.KeyIsLocked info)])
          hlen' htl, hres, hfin, collectLocks, List.append_assoc, List.singleton_append]
      | Other c => simp [isFatal] at h0'

theorem prewritePessLoop_fatal {Txn : Type} (env : MvccEnv Txn) (primary : Key)
    (options : Options) (ms : List Mutation) :
    ∀ (i : Nat) (txn : Txn) (acc : List (Except StorageError Unit)) (j : Nat)
      (r : Except MvccError Unit),
    i + ms.length ≤ options.is_pessimistic_lock.length →
    (prewriteResultsPess env primary options i txn ms).get? j = some r →
    isFatal r = true →
    (∀ a ra, a < j →
      (prewriteResultsPess env primary options i txn ms).get? a = some ra →
      isFatal ra = false) →
    (prewritePessLoop env primary options i txn acc ms).1
      = CollectOut.err (TxnError.Mvcc (errOf r)) := by
  induction ms with
  | nil => intro i txn acc j r _ hj _ _; simp [prewriteResultsPess] at hj
  | cons m ms ih =>
    intro i txn acc j r hlen hj hfat hpre
    have hi : i < options.is_pessimistic_lock.length := by
      simp [List.length_cons] at hlen; omega
    have hb : options.is_pessimistic_lock.get? i
        = some (options.is_pessimistic_lock.get ⟨i, hi⟩) := List.get?_eq_get hi
    set b := options.is_pessimistic_lock.get ⟨i, hi⟩ with hbdef
    have hbd : options.is_pessimistic_lock.getD i false = b := getD_of_get? false hb
    rcases hs : env.pessimistic_prewrite txn m primary b options with ⟨txn', r0⟩
    have hres : prewriteResultsPess env primary options i txn (m :: ms)
        = r0 :: prewriteResultsPess env primary options (i + 1) txn' ms := by
      simp only [prewriteResultsPess]
      rw [hbd, hs]
    rw [hres] at hj hpre
    have hlen' : (i + 1) + ms.length ≤ options.is_pessimistic_lock.length := by
      simp [List.length_cons] at hlen; omega
    cases j with
    | zero =>
      have hr : r0 = r := by simpa using hj
      subst hr
      cases r0 with
      | ok u => simp [isFatal] at hfat
      | error e =>
        cases e with
        | KeyIsLocked info => simp [isFatal] at hfat
        | Other c =>
          simp only [prewritePessLoop, hb, hs]
          simp [errOf]
    | succ j' =>
      have h0 : isFatal r0 = false := hpre 0 r0 (Nat.succ_pos _) rfl
      have hpre' : ∀ a ra, a < j' →
          (prewriteResultsPess env primary options (i + 1) txn' ms).get? a = some ra →
          isFatal ra = false := by
        intro a ra ha hget
        exact hpre (a + 1) ra (by omega) hget
      cases r0 with
      | ok u =>
        simp only [prewritePessLoop, hb, hs]
        simp only [ih (i + 1) txn' acc j' r hlen' hj hfat hpre']
      | error e =>
        cases e with
        | KeyIsLocked info =>
          simp only [prewritePessLoop, hb, hs]
          simp only [ih (i + 1) txn' (acc ++ [lockErr (MvccError.KeyIsLocked info)])
            j' r hlen' hj hfat hpre']
        | Other c => simp [isFatal] at h0

/-- The per-mutation result trace of a Prewrite command: the optimistic or
pessimistic path is chosen exactly as the command does. -/
def prewriteTrace {Txn : Type} (env : MvccEnv Txn) (primary : Key)
    (options : Options) (txn : Txn) (ms : List Mutation) :
    List (Except MvccError Unit) :=
  if options.for_update_ts = 0 then prewriteResultsOpt env primary options txn ms
  else prewriteResultsPess env primary options 0 txn ms

def prewriteFinal {Txn : Type} (env : MvccEnv Txn) (primary : Key)
    (options : Options) (txn : Txn) (ms : List Mutation) : Txn :=
  if options.for_update_ts = 0 then prewriteFinalOpt env primary options txn ms
  else prewriteFinalPess env primary options 0 txn ms

/-- Claim C1: Prewrite is all-or-nothing.  If some mutation yields a fatal
(non-KeyIsLocked) error and everything before it did not, the command
returns that error and no WriteResult.  If no mutation is fatal, the result
is MultiRes with exactly the collected KeyIsLocked errors: empty collection
gives to_be_write = into_modifies and rows = number of mutations, a
non-empty collection gives empty to_be_write and rows = 0. -/
theorem prewrite_atomicity {Txn : Type} (env : MvccEnv Txn) (ctx : Context)
    (mutations : List Mutation) (primary : Key) (start_ts : Nat)
    (options : Options) (lm : Bool) (txn : Txn)
    (hnew : env.mkTxn start_ts (!ctx.not_fill_cache) = Except.ok txn)
    (hlen : options.for_update_ts = 0
      ∨ mutations.length ≤ options.is_pessimistic_lock.length) :
    ((∀ r ∈ prewriteTrace env primary options txn mutations, isFatal r = false) →
      (process_write_impl env
          (Command.Prewrite ctx mutations primary start_ts options) lm).1
        = if collectLocks (prewriteTrace env primary options txn mutations) = [] then
            WOut.ok ⟨ctx, env.into_modifies (prewriteFinal env primary options txn mutations),
              mutations.length, ProcessResult.MultiRes [], none⟩
          else
            WOut.ok ⟨ctx, [], 0,
              ProcessResult.MultiRes
                (collectLocks (prewriteTrace env primary options txn mutations)), none⟩)
    ∧ (∀ j r, (prewriteTrace env primary options txn mutations).get? j = some r →
        isFatal r = true →
        (∀ ri ∈ (prewriteTrace env primary options txn mutations).take j,
          isFatal ri = false) →
        (process_write_impl env
            (Command.Prewrite ctx mutations primary start_ts options) lm).1
          = WOut.err (TxnError.Mvcc (errOf r))) := by
  constructor
  · intro hclean
    simp only [process_write_impl, hnew]
    by_cases hopt : options.for_update_ts = 0
    · simp only [prewriteTrace, prewriteFinal, if_pos hopt] at hclean ⊢
      rw [prewriteOptLoop_clean env primary options mutations txn [] hclean]
      cases hc : collectLocks (prewriteResultsOpt env primary options txn mutations) with
      | nil => simp [hc]
      | cons a l => simp [hc]
    · have hle := hlen.resolve_left hopt
      simp only [prewriteTrace, prewriteFinal, if_neg hopt] at hclean ⊢
      rw [prewritePessLoop_clean env primary options mutations 0 txn []
        (by simpa using hle) hclean]
      cases hc : collectLocks (prewriteResultsPess env primary options 0 txn mutations) with
      | nil => simp [hc]
      | cons a l => simp [hc]
  · intro j r hget hfat hpre
    simp only [process_write_impl, hnew]
    by_cases hopt : options.for_update_ts = 0
    · simp only [prewriteTrace, if_pos hopt] at hget hpre
      rw [if_pos hopt]
      have hpre' : ∀ i ri, i < j →
          (prewriteResultsOpt env primary options txn mutations).get? i = some ri →
          isFatal ri = false := by
        intro i ri hij hg
        exact hpre ri (List.get?_mem (by rw [List.get?_take hij]; exact hg))
      rw [prewriteOptLoop_fatal env primary options mutations txn [] j r hget hfat hpre']
    · have hle := hlen.resolve_left hopt
      simp only [prewriteTrace, if_neg hopt] at hget hpre
      rw [if_neg hopt]
      have hpre' : ∀ i ri, i < j →
          (prewriteResultsPess env primary options 0 txn mutations).get? i = some ri →
          isFatal ri = false := by
        intro i ri hij hg
        exact hpre ri (List.get?_mem (by rw [List.get?_take hij]; exact hg))
      rw [prewritePessLoop_fatal env primary options mutations 0 txn [] j r
        (by simpa using hle) hget hfat hpre']

/-- Witness for C1: an optimistic Prewrite collecting one KeyIsLocked, and
an optimistic Prewrite aborted by a fatal error on its second mutation. -/
theorem prewrite_atomicity_witness :
    ((process_write_impl envT
        (Command.Prewrite ctx0 [1, 100, 2] 1 5 ⟨0, [], false, 0⟩) true).1
      = WOut.ok ⟨ctx0, [], 0,
          ProcessResult.MultiRes [lockErr (MvccError.KeyIsLocked 100)], none⟩)
    ∧ ((process_write_impl envT
        (Command.Prewrite ctx0 [1, 200] 1 5 ⟨0, [], false, 0⟩) true).1
      = WOut.err (TxnError.Mvcc (MvccError.Other 200))) := by
  constructor
  · have h := (prewrite_atomicity envT ctx0 [1, 100, 2] 1 5 ⟨0, [], false, 0⟩ true 1
      (by rfl) (Or.inl rfl)).1 (by decide)
    rw [h]
    rfl
  · exact (prewrite_atomicity envT ctx0 [1, 200] 1 5 ⟨0, [], false, 0⟩ true 1
      (by rfl) (Or.inl rfl)).2 1 (Except.error (MvccError.Other 200))
      (by decide) (by decide) (by decide)

/-! ## AcquirePessimisticLock traces (claim C6) -/

def acquireResults {Txn : Type} (env : MvccEnv Txn) (primary : Key)
    (options : Options) : Txn → List (Key × Bool) → List (Except MvccError Unit)
  | _, [] => []
  | txn, (k, s) :: ks =>
    (env.acquire_pessimistic_lock txn k primary s options).2
      :: acquireResults env primary options
        (env.acquire_pessimistic_lock txn k primary s options).1 ks

def acquireFinal {Txn : Type} (env : MvccEnv Txn) (primary : Key)
    (options : Options) : Txn → List (Key × Bool) → Txn
  | txn, [] => txn
  | txn, (k, s) :: ks =>
    acquireFinal env primary options
      (env.acquire_pessimistic_lock txn k primary s options).1 ks

theorem acquireLoop_clean {Txn : Type} (env : MvccEnv Txn) (primary : Key)
    (options : Options) (keys : List (Key × Bool)) :
    ∀ (txn : Txn) (acc : List (Except StorageError Unit)),
    (∀ r ∈ acquireResults env primary options txn keys, isErr r = false) →
    acquireLoop env primary options txn acc keys
      = (CollectOut.ok (acquireFinal env primary options txn keys) acc,
         keys.map (fun p => Event.evAcquire p.1 p.2)) := by
  induction keys with
  | nil => intro txn acc _; simp [acquireLoop, acquireFinal]
  | cons p ks ih =>
    rcases p with ⟨k, s⟩
    intro txn acc h
    have h0 := h ((env.acquire_pessimistic_lock txn k primary s options).2)
      (by rw [show acquireResults env primary options txn ((k, s) :: ks)
          = (env.acquire_pessimistic_lock txn k primary s options).2
            :: acquireResults env primary options
              (env.acquire_pessimistic_lock txn k primary s options).1 ks from rfl]
          exact List.mem_cons_self _ _)
    rcases hs : env.acquire_pessimistic_lock txn k primary s options with ⟨txn', r⟩
    have hres : acquireResults env primary options txn ((k, s) :: ks)
        = r :: acquireResults env primary options txn' ks := by
      simp [acquireResults, hs]
    have hfin : acquireFinal env primary options txn ((k, s) :: ks)
        = acquireFinal env primary options txn' ks := by
      simp [acquireFinal, hs]
    rw [hres] at h
    rw [hs] at h0
    simp only at h0
    cases r with
    | ok u =>
      simp only [acquireLoop]
      rw [hs]
      simp only [ih txn' acc (fun r hr => h r (List.mem_cons_of_mem _ hr)),
        hfin, List.map_cons]
    | error e => simp [isErr] at h0

theorem acquireLoop_locked {Txn : Type} (env : MvccEnv Txn) (primary : Key)
    (options : Options) (keys : List (Key × Bool)) :
    ∀ (txn : Txn) (acc : List (Except StorageError Unit)) (j : Nat) (info : Nat),
    (acquireResults env primary options txn keys).get? j
      = some (Except.error (MvccError.KeyIsLocked info)) →
    (∀ ri ∈ (acquireResults env primary options txn keys).take j, isErr ri = false) →
    ∃ txn' : Txn,
    acquireLoop env primary options txn acc keys
      = (CollectOut.ok txn' (acc ++ [lockErr (MvccError.KeyIsLocked info)]),
         (keys.take (j + 1)).map (fun p => Event.evAcquire p.1 p.2)) := by
  induction keys with
  | nil => intro txn acc j info hj _; simp [acquireResults] at hj
  | cons p ks ih =>
    rcases p with ⟨k, s⟩
    intro txn acc j info hj hpre
    rcases hs : env.acquire_pessimistic_lock txn k primary s options with ⟨txn', r0⟩
    have hres : acquireResults env primary options txn ((k, s) :: ks)
        = r0 :: acquireResults env primary options txn' ks := by
      simp [acquireResults, hs]
    rw [hres] at hj hpre
    cases j with
    | zero =>
      have hr : r0 = Except.error (MvccError.KeyIsLocked info) := by simpa using hj
      subst hr
      refine ⟨txn', ?_⟩
      simp only [acquireLoop]
      rw [hs]
      simp [List.take]
    | succ j' =>
      have h0 : isErr r0 = false := hpre r0 (by simp [List.take])
      cases r0 with
      | error e => simp [isErr] at h0
      | ok u =>
        obtain ⟨txn'', hrec⟩ := ih txn' acc j' info hj
          (fun ri hri => hpre ri (by simp [List.take]; exact Or.inr hri))
        refine ⟨txn'', ?_⟩
        simp only [acquireLoop]
        rw [hs]
        simp only [hrec, List.take_succ_cons, List.map_cons]

/-- Claim C6: AcquirePessimisticLock is fail-fast.  The per-key loop stops
at the first KeyIsLocked (later keys are never attempted); the WriteResult
then carries exactly that one error, the lock descriptor extracted from it
together with is_first_lock and wait_timeout, empty modifications and
rows = 0, and the orchestrator routes it to a WaitForLock message whose
start_ts is the task's ts.  Without a conflict, to_be_write is
into_modifies and rows = number of keys. -/
theorem acquire_pessimistic_fail_fast {Txn : Type} (env : MvccEnv Txn)
    (ctx : Context) (keys : List (Key × Bool)) (primary : Key) (start_ts : Nat)
    (options : Options) (lm : Bool) (txn : Txn)
    (hnew : env.mkTxn start_ts (!ctx.not_fill_cache) = Except.ok txn) :
    (∀ j info,
      (acquireResults env primary options txn keys).get? j
        = some (Except.error (MvccError.KeyIsLocked info)) →
      (∀ ri ∈ (acquireResults env primary options txn keys).take j,
        isErr ri = false) →
      process_write_impl env
          (Command.AcquirePessimisticLock ctx keys primary start_ts options) lm
        = (WOut.ok ⟨ctx, [], 0,
            ProcessResult.MultiRes [lockErr (MvccError.KeyIsLocked info)],
            some (env.extract_lock_from_result (lockErr (MvccError.KeyIsLocked info)),
              options.is_first_lock, options.wait_timeout)⟩,
           Event.newTxn start_ts (!ctx.not_fill_cache)
             :: (keys.take (j + 1)).map (fun p => Event.evAcquire p.1 p.2))
        ∧ ∀ cid ts,
          process_write_route cid ts
            (process_write_impl env
              (Command.AcquirePessimisticLock ctx keys primary start_ts options) lm).1
          = HandOff.posted (Msg.WaitForLock cid ts
              (ProcessResult.MultiRes [lockErr (MvccError.KeyIsLocked info)])
              (env.extract_lock_from_result (lockErr (MvccError.KeyIsLocked info)))
              options.is_first_lock options.wait_timeout))
    ∧ ((∀ r ∈ acquireResults env primary options txn keys, isErr r = false) →
      process_write_impl env
          (Command.AcquirePessimisticLock ctx keys primary start_ts options) lm
        = (WOut.ok ⟨ctx, env.into_modifies (acquireFinal env primary options txn keys),
            keys.length, ProcessResult.MultiRes [], none⟩,
           Event.newTxn start_ts (!ctx.not_fill_cache)
             :: keys.map (fun p => Event.evAcquire p.1 p.2))) := by
  constructor
  · intro j info hj hpre
    obtain ⟨txn', hloop⟩ := acquireLoop_locked env primary options keys txn [] j info hj hpre
    have hmain : process_write_impl env
        (Command.AcquirePessimisticLock ctx keys primary start_ts options) lm
        = (WOut.ok ⟨ctx, [], 0,
            ProcessResult.MultiRes [lockErr (MvccError.KeyIsLocked info)],
            some (env.extract_lock_from_result (lockErr (MvccError.KeyIsLocked info)),
              options.is_first_lock, options.wait_timeout)⟩,
           Event.newTxn start_ts (!ctx.not_fill_cache)
             :: (keys.take (j + 1)).map (fun p => Event.evAcquire p.1 p.2)) := by
      simp only [process_write_impl, hnew, hloop, List.nil_append]
    refine ⟨hmain, ?_⟩
    intro cid ts
    rw [hmain]
    rfl
  · intro hclean
    rw [show process_write_impl env
        (Command.AcquirePessimisticLock ctx keys primary start_ts options) lm
      = _ from rfl]
    simp only [process_write_impl, hnew,
      acquireLoop_clean env primary options keys txn [] hclean]

/-- Witness for C6: key 100 of envT is already locked, so the second key
conflicts and the third is never attempted; plus a clean two-key run. -/
theorem acquire_pessimistic_fail_fast_witness :
    (process_write_impl envT
        (Command.AcquirePessimisticLock ctx0 [(1, false), (100, true), (2, false)] 1 5
          ⟨0, [], true, 9⟩) true
      = (WOut.ok ⟨ctx0, [], 0,
          ProcessResult.MultiRes [lockErr (MvccError.KeyIsLocked 100)],
          some (42, true, 9)⟩,
         [Event.newTxn 5 true, Event.evAcquire 1 false, Event.evAcquire 100 true])
      ∧ ∀ cid ts, process_write_route cid ts
          (process_write_impl envT
            (Command.AcquirePessimisticLock ctx0 [(1, false), (100, true), (2, false)] 1 5
              ⟨0, [], true, 9⟩) true).1
        = HandOff.posted (Msg.WaitForLock cid ts
            (ProcessResult.MultiRes [lockErr (MvccError.KeyIsLocked 100)]) 42 true 9))
    ∧ (process_write_impl envT
        (Command.AcquirePessimisticLock ctx0 [(1, false), (2, false)] 1 5
          ⟨0, [], true, 9⟩) true
      = (WOut.ok ⟨ctx0, [0, 1, 2], 2, ProcessResult.MultiRes [], none⟩,
         [Event.newTxn 5 true, Event.evAcquire 1 false, Event.evAcquire 2 false])) := by
  constructor
  · exact (acquire_pessimistic_fail_fast envT ctx0 [(1, false), (100, true), (2, false)]
      1 5 ⟨0, [], true, 9⟩ true 1 (by rfl)).1 1 100 (by decide) (by decide)
  · have h := (acquire_pessimistic_fail_fast envT ctx0 [(1, false), (2, false)]
      1 5 ⟨0, [], true, 9⟩ true 1 (by rfl)).2 (by decide)
    rw [h]
    rfl

/-! ## ResolveLockLite (claim C4)

The ResolveLockLite arm performs no timestamp-invariant check: it commits
whenever commit_ts > 0, even when commit_ts is at or below the lock's
start_ts, and rolls back when commit_ts = 0. -/

/-- Counterexample to claim C4 as stated: resolving with start_ts = 10 and
commit_ts = 5 (so 0 < commit_ts <= start_ts) does not fail with
InvalidTxnTso; the key is simply committed at commit_ts = 5 and the
command returns Res. -/
theorem resolve_lock_lite_counterexample :
    process_write_impl envT (Command.ResolveLockLite ctx0 10 5 [1]) true
      = (WOut.ok ⟨ctx0, [0, 1], 1, ProcessResult.Res, none⟩,
         [Event.newTxn 10 true, Event.evCommit 1 5, Event.wakeUp 10 [10] 5 true])
    ∧ (process_write_impl envT (Command.ResolveLockLite ctx0 10 5 [1]) true).1
      ≠ WOut.err (TxnError.InvalidTxnTso 10 5) := by
  constructor
  · rfl
  · decide

/-- Claim C4 as amended: ResolveLockLite rolls each key back when
commit_ts = 0 and commits each key at commit_ts when commit_ts > 0, with no
timestamp-invariant check; a single aggregator collects every freed lock
and wake_up is invoked exactly once when a lock manager is present. -/
theorem resolve_lock_lite_rule {Txn : Type} (env : MvccEnv Txn) (ctx : Context)
    (start_ts commit_ts : Nat) (resolve_keys : List Key) (lm : Bool) (txn : Txn)
    (hnew : env.mkTxn start_ts (!ctx.not_fill_cache) = Except.ok txn)
    (hok : ∀ r ∈ releaseResults
        (fun t k => if 0 < commit_ts then env.commit t k commit_ts else env.rollback t k)
        txn resolve_keys, isErr r = false) :
    process_write_impl env
        (Command.ResolveLockLite ctx start_ts commit_ts resolve_keys) lm
      = (WOut.ok ⟨ctx,
          env.into_modifies (releaseFinal
            (fun t k => if 0 < commit_ts then env.commit t k commit_ts else env.rollback t k)
            txn resolve_keys),
          resolve_keys.length, ProcessResult.Res, none⟩,
         Event.newTxn start_ts (!ctx.not_fill_cache)
           :: resolve_keys.map
              (fun k => if 0 < commit_ts then Event.evCommit k commit_ts
                else Event.evRollback k)
           ++ (pushAll (ReleasedLocks.mk' start_ts commit_ts)
                (okReleased (releaseResults
                  (fun t k => if 0 < commit_ts then env.commit t k commit_ts
                    else env.rollback t k)
                  txn resolve_keys))).wake_up lm) := by
  simp only [process_write_impl, hnew]
  rw [releaseLoop_ok _ _ resolve_keys txn (ReleasedLocks.mk' start_ts commit_ts) hok]

/-- Witness for the amended C4: a rollback run (commit_ts = 0) on two keys,
freeing two locks and waking up once. -/
theorem resolve_lock_lite_rule_witness :
    process_write_impl envT (Command.ResolveLockLite ctx0 7 0 [1, 2]) true
      = (WOut.ok ⟨ctx0, [0, 1, 2], 2, ProcessResult.Res, none⟩,
         [Event.newTxn 7 true, Event.evRollback 1, Event.evRollback 2,
          Event.wakeUp 7 [11, 21] 0 false]) := by
  have h := resolve_lock_lite_rule envT ctx0 7 0 [1, 2] true 1 (by rfl) (by decide)
  rw [h]
  rfl

/-! ## ResolveLock traces (claims C3, C5, C8)

The trace records, for each (key, lock) pair in order, the action the
write half takes on it and the transaction state afterwards, threading
states as if no early exit happened; the loop agrees with the trace on the
prefix it actually runs. -/

inductive RAction where
  | rolledBack (r : Except MvccError (Option ReleasedLock))
  | committed (c : Nat) (r : Except MvccError (Option ReleasedLock))
  | invalidTso (c : Nat)
  | statusMissing
deriving DecidableEq, Repr

structure RStep (Txn : Type) where
  key : Key
  lockTs : Nat
  action : RAction
  txnAfter : Txn
deriving DecidableEq

def resolveTrace {Txn : Type} (env : MvccEnv Txn) (txn_status : List (Nat × Nat)) :
    Txn → List (Key × MvccLock) → List (RStep Txn)
  | _, [] => []
  | txn, (ck, cl) :: rest =>
    match lookupTs txn_status cl.ts with
    | none =>
      ⟨ck, cl.ts, RAction.statusMissing, env.set_start_ts txn cl.ts⟩
        :: resolveTrace env txn_status (env.set_start_ts txn cl.ts) rest
    | some c =>
      if c = 0 then
        ⟨ck, cl.ts, RAction.rolledBack (env.rollback (env.set_start_ts txn cl.ts) ck).2,
            (env.rollback (env.set_start_ts txn cl.ts) ck).1⟩
          :: resolveTrace env txn_status (env.rollback (env.set_start_ts txn cl.ts) ck).1 rest
      else if cl.ts < c then
        ⟨ck, cl.ts, RAction.committed c (env.commit (env.set_start_ts txn cl.ts) ck c).2,
            (env.commit (env.set_start_ts txn cl.ts) ck c).1⟩
          :: resolveTrace env txn_status (env.commit (env.set_start_ts txn cl.ts) ck c).1 rest
      else
        ⟨ck, cl.ts, RAction.invalidTso c, env.set_start_ts txn cl.ts⟩
          :: resolveTrace env txn_status (env.set_start_ts txn cl.ts) rest

/-- A step whose MVCC action succeeded. -/
def stepOk {Txn : Type} : RStep Txn → Bool
  | ⟨_, _, RAction.rolledBack (.ok _), _⟩ => true
  | ⟨_, _, RAction.committed _ (.ok _), _⟩ => true
  | _ => false

def stepCommitTs : RAction → Nat
  | RAction.rolledBack _ => 0
  | RAction.committed c _ => c
  | RAction.invalidTso c => c
  | RAction.statusMissing => 0

def stepRel : RAction → Option ReleasedLock
  | RAction.rolledBack (.ok rel) => rel
  | RAction.committed _ (.ok rel) => rel
  | _ => none

/-- The aggregator-map update a successful step performs. -/
def stepUpdate {Txn : Type} (m : List (Nat × ReleasedLocks)) (s : RStep Txn) :
    List (Nat × ReleasedLocks) :=
  updateReleased m s.lockTs (stepCommitTs s.action) (stepRel s.action)

def stepEvents {Txn : Type} : RStep Txn → List Event
  | ⟨k, ts, RAction.rolledBack _, _⟩ => [Event.evSetStartTs ts, Event.evRollback k]
  | ⟨k, ts, RAction.committed c _, _⟩ => [Event.evSetStartTs ts, Event.evCommit k c]
  | ⟨_, ts, RAction.invalidTso _, _⟩ => [Event.evSetStartTs ts]
  | ⟨_, ts, RAction.statusMissing, _⟩ => [Event.evSetStartTs ts]

def joinEvents {Txn : Type} (ss : List (RStep Txn)) : List Event :=
  ss.foldr (fun s acc => stepEvents s ++ acc) []

/-- A clean step: its action succeeded and it did not trip the batch-size
cutoff, so the loop continues past it. -/
def cleanStep {Txn : Type} (env : MvccEnv Txn) (s : RStep Txn) : Bool :=
  stepOk s && decide (env.write_size s.txnAfter < MAX_TXN_WRITE_SIZE)

def txnAfterSteps {Txn : Type} (txn : Txn) : List (RStep Txn) → Txn
  | [] => txn
  | s :: ss => txnAfterSteps s.txnAfter ss

/-- After a prefix of clean steps, the loop is the loop restarted from the
threaded state on the remaining pairs, with the prefix events in front. -/
theorem resolveLoop_advance {Txn : Type} (env : MvccEnv Txn)
    (txn_status : List (Nat × Nat)) (pairs : List (Key × MvccLock)) :
    ∀ (j : Nat) (txn : Txn) (released : List (Nat × ReleasedLocks))
      (scan_key : Option Key),
    (∀ s ∈ (resolveTrace env txn_status txn pairs).take j, cleanStep env s = true) →
    resolveLoop env txn_status txn released scan_key pairs
      = ((resolveLoop env txn_status
            (txnAfterSteps txn ((resolveTrace env txn_status txn pairs).take j))
            (((resolveTrace env txn_status txn pairs).take j).foldl stepUpdate released)
            scan_key (pairs.drop j)).1,
         joinEvents ((resolveTrace env txn_status txn pairs).take j)
           ++ (resolveLoop env txn_status
                (txnAfterSteps txn ((resolveTrace env txn_status txn pairs).take j))
                (((resolveTrace env txn_status txn pairs).take j).foldl stepUpdate released)
                scan_key (pairs.drop j)).2) := by
  induction pairs with
  | nil =>
    intro j txn released scan_key _
    simp [resolveTrace, resolveLoop, joinEvents, txnAfterSteps]
  | cons p rest ih =>
    rcases p with ⟨ck, cl⟩
    intro j txn released scan_key hclean
    cases j with
    | zero => simp [joinEvents, txnAfterSteps]
    | succ j' =>
      cases hl : lookupTs txn_status cl.ts with
      | none =>
        have htr : resolveTrace env txn_status txn ((ck, cl) :: rest)
            = ⟨ck, cl.ts, RAction.statusMissing, env.set_start_ts txn cl.ts⟩
              :: resolveTrace env txn_status (env.set_start_ts txn cl.ts) rest := by
          simp [resolveTrace, hl]
        rw [htr] at hclean
        have h0 := hclean ⟨ck, cl.ts, RAction.statusMissing, env.set_start_ts txn cl.ts⟩
          (by rw [List.take_succ_cons]; exact List.mem_cons_self _ _)
        simp [cleanStep, stepOk] at h0
      | some c =>
        by_cases hc0 : c = 0
        · subst hc0
          rcases hr : env.rollback (env.set_start_ts txn cl.ts) ck with ⟨t2, r⟩
          have htr : resolveTrace env txn_status txn ((ck, cl) :: rest)
              = ⟨ck, cl.ts, RAction.rolledBack r, t2⟩
                :: resolveTrace env txn_status t2 rest := by
            simp [resolveTrace, hl, hr]
          rw [htr] at hclean ⊢
          have h0 := hclean ⟨ck, cl.ts, RAction.rolledBack r, t2⟩
            (by rw [List.take_succ_cons]; exact List.mem_cons_self _ _)
          simp only [cleanStep, Bool.and_eq_true, decide_eq_true_eq] at h0
          obtain ⟨hok0, hsize⟩ := h0
          cases r with
          | error e => simp [stepOk] at hok0
          | ok rel0 =>
            have hloop : resolveLoop env txn_status txn released scan_key ((ck, cl) :: rest)
                = ((resolveLoop env txn_status t2
                      (updateReleased released cl.ts 0 rel0) scan_key rest).1,
                   Event.evSetStartTs cl.ts :: Event.evRollback ck
                     :: (resolveLoop env txn_status t2
                          (updateReleased released cl.ts 0 rel0) scan_key rest).2) := by
              have hnle := Nat.not_le.mpr hsize
              simp [resolveLoop, hl, hr, hnle]
            rw [hloop]
            have hcl' := fun s hs => hclean s (by simp [List.take]; exact Or.inr hs)
            rw [ih j' t2 (updateReleased released cl.ts 0 rel0) scan_key hcl']
            simp [List.take_succ_cons, txnAfterSteps, joinEvents, stepEvents,
              stepUpdate, stepCommitTs, stepRel, List.append_assoc]
        · by_cases hlt : cl.ts < c
          · rcases hr : env.commit (env.set_start_ts txn cl.ts) ck c with ⟨t2, r⟩
            have htr : resolveTrace env txn_status txn ((ck, cl) :: rest)
                = ⟨ck, cl.ts, RAction.committed c r, t2⟩
                  :: resolveTrace env txn_status t2 rest := by
              simp [resolveTrace, hl, hr, hc0, hlt]
            rw [htr] at hclean ⊢
            have h0 := hclean ⟨ck, cl.ts, RAction.committed c r, t2⟩
              (by rw [List.take_succ_cons]; exact List.mem_cons_self _ _)
            simp only [cleanStep, Bool.and_eq_true, decide_eq_true_eq] at h0
            obtain ⟨hok0, hsize⟩ := h0
            cases r with
            | error e => simp [stepOk] at hok0
            | ok rel0 =>
              have hloop : resolveLoop env txn_status txn released scan_key ((ck, cl) :: rest)
                  = ((resolveLoop env txn_status t2
                        (updateReleased released cl.ts c rel0) scan_key rest).1,
                     Event.evSetStartTs cl.ts :: Event.evCommit ck c
                       :: (resolveLoop env txn_status t2
                            (updateReleased released cl.ts c rel0) scan_key rest).2) := by
                have hnle := Nat.not_le.mpr hsize
                simp [resolveLoop, hl, hr, hc0, hlt, hnle]
              rw [hloop]
              have hcl' := fun s hs => hclean s (by simp [List.take]; exact Or.inr hs)
              rw [ih j' t2 (updateReleased released cl.ts c rel0) scan_key hcl']
              simp [List.take_succ_cons, txnAfterSteps, joinEvents, stepEvents,
                stepUpdate, stepCommitTs, stepRel, List.append_assoc]
          · have htr : resolveTrace env txn_status txn ((ck, cl) :: rest)
                = ⟨ck, cl.ts, RAction.invalidTso c, env.set_start_ts txn cl.ts⟩
                  :: resolveTrace env txn_status (env.set_start_ts txn cl.ts) rest := by
              simp [resolveTrace, hl, hc0, hlt]
            rw [htr] at hclean
            have h0 := hclean ⟨ck, cl.ts, RAction.invalidTso c, env.set_start_ts txn cl.ts⟩
              (by rw [List.take_succ_cons]; exact List.mem_cons_self _ _)
            simp [cleanStep, stepOk] at h0

theorem resolveLoop_head_rollback {Txn : Type} (env : MvccEnv Txn)
    (txn_status : List (Nat × Nat)) (txn : Txn) (released : List (Nat × ReleasedLocks))
    (scan_key : Option Key) (ck : Key) (cl : MvccLock) (rest : List (Key × MvccLock))
    (h0 : lookupTs txn_status cl.ts = some 0) :
    ∃ tail, (resolveLoop env txn_status txn released scan_key ((ck, cl) :: rest)).2
      = Event.evSetStartTs cl.ts :: Event.evRollback ck :: tail := by
  rcases hr : env.rollback (env.set_start_ts txn cl.ts) ck with ⟨t2, r⟩
  cases r with
  | error e => exact ⟨[], by simp [resolveLoop, h0, hr]⟩
  | ok rel0 =>
    by_cases hcut : MAX_TXN_WRITE_SIZE ≤ env.write_size t2
    · exact ⟨[], by simp [resolveLoop, h0, hr, hcut]⟩
    · exact ⟨(resolveLoop env txn_status t2
        (updateReleased released cl.ts 0 rel0) scan_key rest).2,
        by simp [resolveLoop, h0, hr, hcut]⟩

theorem resolveLoop_head_commit {Txn : Type} (env : MvccEnv Txn)
    (txn_status : List (Nat × Nat)) (txn : Txn) (released : List (Nat × ReleasedLocks))
    (scan_key : Option Key) (ck : Key) (cl : MvccLock) (rest : List (Key × MvccLock))
    (c : Nat) (hc : lookupTs txn_status cl.ts = some c) (hlt : cl.ts < c) :
    ∃ tail, (resolveLoop env txn_status txn released scan_key ((ck, cl) :: rest)).2
      = Event.evSetStartTs cl.ts :: Event.evCommit ck c :: tail := by
  have hc0 : ¬ c = 0 := by omega
  rcases hr : env.commit (env.set_start_ts txn cl.ts) ck c with ⟨t2, r⟩
  cases r with
  | error e => exact ⟨[], by simp [resolveLoop, hc, hc0, hlt, hr]⟩
  | ok rel0 =>
    by_cases hcut : MAX_TXN_WRITE_SIZE ≤ env.write_size t2
    · exact ⟨[], by simp [resolveLoop, hc, hc0, hlt, hr, hcut]⟩
    · exact ⟨(resolveLoop env txn_status t2
        (updateReleased released cl.ts c rel0) scan_key rest).2,
        by simp [resolveLoop, hc, hc0, hlt, hr, hcut]⟩

theorem resolveLoop_head_invalid {Txn : Type} (env : MvccEnv Txn)
    (txn_status : List (Nat × Nat)) (txn : Txn) (released : List (Nat × ReleasedLocks))
    (scan_key : Option Key) (ck : Key) (cl : MvccLock) (rest : List (Key × MvccLock))
    (c : Nat) (hc : lookupTs txn_status cl.ts = some c) (hpos : 0 < c)
    (hle : c ≤ cl.ts) :
    resolveLoop env txn_status txn released scan_key ((ck, cl) :: rest)
      = (ResolveOut.err (TxnError.InvalidTxnTso cl.ts c), [Event.evSetStartTs cl.ts]) := by
  have hc0 : ¬ c = 0 := by omega
  have hlt : ¬ cl.ts < c := by omega
  simp [resolveLoop, hc, hc0, hlt]

/-- The ResolveLock arm's event log always starts with the MvccTxn
construction followed by the loop's events. -/
theorem resolve_arm_log {Txn : Type} (env : MvccEnv Txn) (ctx : Context)
    (txn_status : List (Nat × Nat)) (scan_key : Option Key)
    (key_locks : List (Key × MvccLock)) (lm : Bool) (txn : Txn)
    (hnew : env.mkTxn 0 (!ctx.not_fill_cache) = Except.ok txn) :
    ∃ extra,
      (process_write_impl env (Command.ResolveLock ctx txn_status scan_key key_locks) lm).2
        = Event.newTxn 0 (!ctx.not_fill_cache)
            :: ((resolveLoop env txn_status txn [] scan_key key_locks).2 ++ extra) := by
  cases hout : (resolveLoop env txn_status txn [] scan_key key_locks).1 with
  | panicked => exact ⟨[], by simp [process_write_impl, hnew, hout]⟩
  | err e => exact ⟨[], by simp [process_write_impl, hnew, hout]⟩
  | ok txn' scan_key' released =>
    exact ⟨released.foldr (fun p acc => p.2.wake_up lm ++ acc) [],
      by simp [process_write_impl, hnew, hout]⟩

/-- Claim C3: in the ResolveLock write half, once the pairs before position
j have been processed cleanly, pair j is dispatched on the looked-up
commit_ts — the transaction start_ts is set to the lock's ts first, then
commit_ts = 0 rolls the key back, commit_ts > lock.ts commits the key at
commit_ts, and 0 < commit_ts <= lock.ts fails the whole command with
InvalidTxnTso of the lock's ts and that commit_ts. -/
theorem resolve_lock_rule {Txn : Type} (env : MvccEnv Txn) (ctx : Context)
    (txn_status : List (Nat × Nat)) (scan_key : Option Key)
    (key_locks : List (Key × MvccLock)) (lm : Bool) (txn : Txn)
    (hnew : env.mkTxn 0 (!ctx.not_fill_cache) = Except.ok txn)
    (j : Nat) (ck : Key) (cl : MvccLock)
    (hj : key_locks.get? j = some (ck, cl))
    (hclean : ∀ s ∈ (resolveTrace env txn_status txn key_locks).take j,
      cleanStep env s = true) :
    (lookupTs txn_status cl.ts = some 0 →
      ∃ tail, (process_write_impl env
          (Command.ResolveLock ctx txn_status scan_key key_locks) lm).2
        = Event.newTxn 0 (!ctx.not_fill_cache)
            :: (joinEvents ((resolveTrace env txn_status txn key_locks).take j)
              ++ Event.evSetStartTs cl.ts :: Event.evRollback ck :: tail))
    ∧ (∀ c, lookupTs txn_status cl.ts = some c → cl.ts < c →
      ∃ tail, (process_write_impl env
          (Command.ResolveLock ctx txn_status scan_key key_locks) lm).2
        = Event.newTxn 0 (!ctx.not_fill_cache)
            :: (joinEvents ((resolveTrace env txn_status txn key_locks).take j)
              ++ Event.evSetStartTs cl.ts :: Event.evCommit ck c :: tail))
    ∧ (∀ c, lookupTs txn_status cl.ts = some c → 0 < c → c ≤ cl.ts →
      process_write_impl env (Command.ResolveLock ctx txn_status scan_key key_locks) lm
        = (WOut.err (TxnError.InvalidTxnTso cl.ts c),
           Event.newTxn 0 (!ctx.not_fill_cache)
             :: (joinEvents ((resolveTrace env txn_status txn key_locks).take j)
               ++ [Event.evSetStartTs cl.ts]))) := by
  have hjlt : j < key_locks.length := by
    by_contra hge
    rw [List.get?_eq_none.mpr (by omega)] at hj
    exact Option.noConfusion hj
  have hdrop : key_locks.drop j = (ck, cl) :: key_locks.drop (j + 1) := by
    rw [List.drop_eq_getElem_cons hjlt]
    have : key_locks[j] = (ck, cl) := by
      have := List.get?_eq_getElem? key_locks j
      rw [hj] at this
      have h2 := List.getElem?_eq_getElem hjlt
      rw [h2] at this
      exact (Option.some.injEq _ _).mp this.symm
    rw [this]
  have hadv := resolveLoop_advance env txn_status key_locks j txn [] scan_key hclean
  obtain ⟨extra, hlog⟩ := resolve_arm_log env ctx txn_status scan_key key_locks lm txn hnew
  refine ⟨?_, ?_, ?_⟩
  · intro h0
    obtain ⟨tail, htail⟩ := resolveLoop_head_rollback env txn_status
      (txnAfterSteps txn ((resolveTrace env txn_status txn key_locks).take j))
      (((resolveTrace env txn_status txn key_locks).take j).foldl stepUpdate [])
      scan_key ck cl (key_locks.drop (j + 1)) h0
    refine ⟨tail ++ extra, ?_⟩
    rw [hlog, hadv]
    simp only [hdrop] at htail ⊢
    rw [htail]
    simp [List.append_assoc]
  · intro c hc hlt
    obtain ⟨tail, htail⟩ := resolveLoop_head_commit env txn_status
      (txnAfterSteps txn ((resolveTrace env txn_status txn key_locks).take j))
      (((resolveTrace env txn_status txn key_locks).take j).foldl stepUpdate [])
      scan_key ck cl (key_locks.drop (j + 1)) c hc hlt
    refine ⟨tail ++ extra, ?_⟩
    rw [hlog, hadv]
    simp only [hdrop] at htail ⊢
    rw [htail]
    simp [List.append_assoc]
  · intro c hc hpos hle
    have hhead := resolveLoop_head_invalid env txn_status
      (txnAfterSteps txn ((resolveTrace env txn_status txn key_locks).take j))
      (((resolveTrace env txn_status txn key_locks).take j).foldl stepUpdate [])
      scan_key ck cl (key_locks.drop (j + 1)) c hc hpos hle
    have hloop : resolveLoop env txn_status txn [] scan_key key_locks
        = (ResolveOut.err (TxnError.InvalidTxnTso cl.ts c),
           joinEvents ((resolveTrace env txn_status txn key_locks).take j)
             ++ [Event.evSetStartTs cl.ts]) := by
      rw [hadv, hdrop, hhead]
    simp [process_write_impl, hnew, hloop]

/-- Witness for C3: txn_status maps ts 4 to 0 (rollback), ts 6 to 9
(commit), ts 8 to 3 (invalid); three runs exercise the three dispatch
outcomes at position 1 after one clean pair. -/
theorem resolve_lock_rule_witness :
    (∃ tail, (process_write_impl envT
        (Command.ResolveLock ctx0 [(4, 0), (6, 9), (8, 3)] none [(1, ⟨6⟩), (2, ⟨4⟩)]) true).2
      = Event.newTxn 0 true
          :: (joinEvents ((resolveTrace envT [(4, 0), (6, 9), (8, 3)] 1
                [(1, ⟨6⟩), (2, ⟨4⟩)]).take 1)
            ++ Event.evSetStartTs 4 :: Event.evRollback 2 :: tail))
    ∧ (∃ tail, (process_write_impl envT
        (Command.ResolveLock ctx0 [(4, 0), (6, 9), (8, 3)] none [(1, ⟨4⟩), (2, ⟨6⟩)]) true).2
      = Event.newTxn 0 true
          :: (joinEvents ((resolveTrace envT [(4, 0), (6, 9), (8, 3)] 1
                [(1, ⟨4⟩), (2, ⟨6⟩)]).take 1)
            ++ Event.evSetStartTs 6 :: Event.evCommit 2 9 :: tail))
    ∧ (process_write_impl envT
        (Command.ResolveLock ctx0 [(4, 0), (6, 9), (8, 3)] none [(1, ⟨4⟩), (2, ⟨8⟩)]) true
      = (WOut.err (TxnError.InvalidTxnTso 8 3),
         Event.newTxn 0 true
           :: (joinEvents ((resolveTrace envT [(4, 0), (6, 9), (8, 3)] 1
                 [(1, ⟨4⟩), (2, ⟨8⟩)]).take 1)
             ++ [Event.evSetStartTs 8]))) := by
  refine ⟨?_, ?_, ?_⟩
  · exact (resolve_lock_rule envT ctx0 [(4, 0), (6, 9), (8, 3)] none
      [(1, ⟨6⟩), (2, ⟨4⟩)] true 1 (by rfl) 1 2 ⟨4⟩ (by rfl) (by decide)).1 (by rfl)
  · exact (resolve_lock_rule envT ctx0 [(4, 0), (6, 9), (8, 3)] none
      [(1, ⟨4⟩), (2, ⟨6⟩)] true 1 (by rfl) 1 2 ⟨6⟩ (by rfl) (by decide)).2.1 9
      (by rfl) (by decide)
  · exact (resolve_lock_rule envT ctx0 [(4, 0), (6, 9), (8, 3)] none
      [(1, ⟨4⟩), (2, ⟨8⟩)] true 1 (by rfl) 1 2 ⟨8⟩ (by rfl) (by decide)).2.2 3
      (by rfl) (by decide) (by decide)

/-! ## Batch cutoff (claim C5) -/

/-- The steps the loop actually processes: the trace prefix up to and
including the first step whose post-state write size reaches the budget. -/
def runSteps {Txn : Type} (env : MvccEnv Txn) : List (RStep Txn) → List (RStep Txn)
  | [] => []
  | s :: ss =>
    if MAX_TXN_WRITE_SIZE ≤ env.write_size s.txnAfter then [s]
    else s :: runSteps env ss

/-- The scan_key left when the loop finishes: the cutoff step's key, or the
initial scan_key when no cutoff fires. -/
def runScanKey {Txn : Type} (env : MvccEnv Txn) (scan_key : Option Key) :
    List (RStep Txn) → Option Key
  | [] => scan_key
  | s :: ss =>
    if MAX_TXN_WRITE_SIZE ≤ env.write_size s.txnAfter then some s.key
    else runScanKey env scan_key ss

/-- One wake_up per aggregator entry, in map order. -/
def wakeAll (m : List (Nat × ReleasedLocks)) (lm : Bool) : List Event :=
  m.foldr (fun p acc => p.2.wake_up lm ++ acc) []

/-- When every processed step's action succeeds, the loop consumes exactly
runSteps of the trace and stops with runScanKey. -/
theorem resolveLoop_run {Txn : Type} (env : MvccEnv Txn)
    (txn_status : List (Nat × Nat)) (pairs : List (Key × MvccLock)) :
    ∀ (txn : Txn) (released : List (Nat × ReleasedLocks)) (scan_key : Option Key),
    (∀ s ∈ runSteps env (resolveTrace env txn_status txn pairs), stepOk s = true) →
    resolveLoop env txn_status txn released scan_key pairs
      = (ResolveOut.ok
          (txnAfterSteps txn (runSteps env (resolveTrace env txn_status txn pairs)))
          (runScanKey env scan_key (resolveTrace env txn_status txn pairs))
          ((runSteps env (resolveTrace env txn_status txn pairs)).foldl stepUpdate released),
         joinEvents (runSteps env (resolveTrace env txn_status txn pairs))) := by
  induction pairs with
  | nil =>
    intro txn released scan_key _
    simp [resolveTrace, resolveLoop, runSteps, runScanKey, joinEvents, txnAfterSteps]
  | cons p rest ih =>
    rcases p with ⟨ck, cl⟩
    intro txn released scan_key hok
    cases hl : lookupTs txn_status cl.ts with
    | none =>
      have htr : resolveTrace env txn_status txn ((ck, cl) :: rest)
          = ⟨ck, cl.ts, RAction.statusMissing, env.set_start_ts txn cl.ts⟩
            :: resolveTrace env txn_status (env.set_start_ts txn cl.ts) rest := by
        simp [resolveTrace, hl]
      rw [htr] at hok
      have h0 : stepOk (⟨ck, cl.ts, RAction.statusMissing,
          env.set_start_ts txn cl.ts⟩ : RStep Txn) = true := by
        apply hok
        simp only [runSteps]
        split
        · exact List.mem_cons_self _ _
        · exact List.mem_cons_self _ _
      simp [stepOk] at h0
    | some c =>
      by_cases hc0 : c = 0
      · subst hc0
        rcases hr : env.rollback (env.set_start_ts txn cl.ts) ck with ⟨t2, r⟩
        have htr : resolveTrace env txn_status txn ((ck, cl) :: rest)
            = ⟨ck, cl.ts, RAction.rolledBack r, t2⟩
              :: resolveTrace env txn_status t2 rest := by
          simp [resolveTrace, hl, hr]
        rw [htr] at hok ⊢
        have h0 : stepOk (⟨ck, cl.ts, RAction.rolledBack r, t2⟩ : RStep Txn) = true := by
          apply hok
          simp only [runSteps]
          split
          · exact List.mem_cons_self _ _
          · exact List.mem_cons_self _ _
        cases r with
        | error e => simp [stepOk] at h0
        | ok rel0 =>
          by_cases hcut : MAX_TXN_WRITE_SIZE ≤ env.write_size t2
          · have hloop : resolveLoop env txn_status txn released scan_key ((ck, cl) :: rest)
                = (ResolveOut.ok t2 (some ck) (updateReleased released cl.ts 0 rel0),
                   [Event.evSetStartTs cl.ts, Event.evRollback ck]) := by
              simp [resolveLoop, hl, hr, hcut]
            rw [hloop]
            simp [runSteps, runScanKey, hcut, txnAfterSteps, joinEvents, stepEvents,
              stepUpdate, stepCommitTs, stepRel]
          · have hok' : ∀ s ∈ runSteps env (resolveTrace env txn_status t2 rest),
                stepOk s = true := by
              intro s hs
              apply hok
              simp only [runSteps, if_neg hcut]
              exact List.mem_cons_of_mem _ hs
            have hloop : resolveLoop env txn_status txn released scan_key ((ck, cl) :: rest)
                = ((resolveLoop env txn_status t2
                      (updateReleased released cl.ts 0 rel0) scan_key rest).1,
                   Event.evSetStartTs cl.ts :: Event.evRollback ck
                     :: (resolveLoop env txn_status t2
                          (updateReleased released cl.ts 0 rel0) scan_key rest).2) := by
              simp [resolveLoop, hl, hr, hcut]
            rw [hloop, ih t2 (updateReleased released cl.ts 0 rel0) scan_key hok']
            simp [runSteps, runScanKey, hcut, txnAfterSteps, joinEvents, stepEvents,
              stepUpdate, stepCommitTs, stepRel]
      · by_cases hlt : cl.ts < c
        · rcases hr : env.commit (env.set_start_ts txn cl.ts) ck c with ⟨t2, r⟩
          have htr : resolveTrace env txn_status txn ((ck, cl) :: rest)
              = ⟨ck, cl.ts, RAction.committed c r, t2⟩
                :: resolveTrace env txn_status t2 rest := by
            simp [resolveTrace, hl, hr, hc0, hlt]
          rw [htr] at hok ⊢
          have h0 : stepOk (⟨ck, cl.ts, RAction.committed c r, t2⟩ : RStep Txn) = true := by
            apply hok
            simp only [runSteps]
            split
            · exact List.mem_cons_self _ _
            · exact List.mem_cons_self _ _
          cases r with
          | error e => simp [stepOk] at h0
          | ok rel0 =>
            by_cases hcut : MAX_TXN_WRITE_SIZE ≤ env.write_size t2
            · have hloop : resolveLoop env txn_status txn released scan_key ((ck, cl) :: rest)
                  = (ResolveOut.ok t2 (some ck) (updateReleased released cl.ts c rel0),
                     [Event.evSetStartTs cl.ts, Event.evCommit ck c]) := by
                simp [resolveLoop, hl, hr, hc0, hlt, hcut]
              rw [hloop]
              simp [runSteps, runScanKey, hcut, txnAfterSteps, joinEvents, stepEvents,
                stepUpdate, stepCommitTs, stepRel]
            · have hok' : ∀ s ∈ runSteps env (resolveTrace env txn_status t2 rest),
                  stepOk s = true := by
                intro s hs
                apply hok
                simp only [runSteps, if_neg hcut]
                exact List.mem_cons_of_mem _ hs
              have hloop : resolveLoop env txn_status txn released scan_key ((ck, cl) :: rest)
                  = ((resolveLoop env txn_status t2
                        (updateReleased released cl.ts c rel0) scan_key rest).1,
                     Event.evSetStartTs cl.ts :: Event.evCommit ck c
                       :: (resolveLoop env txn_status t2
                            (updateReleased released cl.ts c rel0) scan_key rest).2) := by
                simp [resolveLoop, hl, hr, hc0, hlt, hcut]
              rw [hloop, ih t2 (updateReleased released cl.ts c rel0) scan_key hok']
              simp [runSteps, runScanKey, hcut, txnAfterSteps, joinEvents, stepEvents,
                stepUpdate, stepCommitTs, stepRel]
        · have htr : resolveTrace env txn_status txn ((ck, cl) :: rest)
              = ⟨ck, cl.ts, RAction.invalidTso c, env.set_start_ts txn cl.ts⟩
                :: resolveTrace env txn_status (env.set_start_ts txn cl.ts) rest := by
            simp [resolveTrace, hl, hc0, hlt]
          rw [htr] at hok
          have h0 : stepOk (⟨ck, cl.ts, RAction.invalidTso c,
              env.set_start_ts txn cl.ts⟩ : RStep Txn) = true := by
            apply hok
            simp only [runSteps]
            split
            · exact List.mem_cons_self _ _
            · exact List.mem_cons_self _ _
          simp [stepOk] at h0

/-- Every processed step except possibly the last stayed strictly below the
write budget: the cutoff is checked after each key, so at most one key's
worth of modifications can exceed it. -/
theorem runSteps_bound {Txn : Type} (env : MvccEnv Txn) (tr : List (RStep Txn)) :
    ∀ s ∈ (runSteps env tr).dropLast, env.write_size s.txnAfter < MAX_TXN_WRITE_SIZE := by
  induction tr with
  | nil => simp [runSteps]
  | cons s0 ss ih =>
    simp only [runSteps]
    by_cases hcut : MAX_TXN_WRITE_SIZE ≤ env.write_size s0.txnAfter
    · rw [if_pos hcut]
      simp
    · rw [if_neg hcut]
      intro s hs
      cases hrs : runSteps env ss with
      | nil =>
        rw [hrs] at hs
        simp at hs
      | cons a l =>
        rw [hrs] at hs
        rw [List.dropLast_cons₂] at hs
        rcases List.mem_cons.mp hs with hs0 | hs1
        · subst hs0; omega
        · exact ih s (by rw [hrs]; exact hs1)

/-- Claim C5: the ResolveLock write half checks the batch cutoff after each
processed key: when write_size reaches MAX_TXN_WRITE_SIZE the loop stops and
the current key becomes the next scan_key; at the end an unset scan_key
gives pr = Res while a set one gives pr = NextCommand carrying a ResolveLock
with that scan_key, the same txn_status, and empty key_locks.  All processed
steps but the last stayed strictly below the budget, so one write batch
holds at most MAX_TXN_WRITE_SIZE plus one key's worth of modifications. -/
theorem resolve_lock_batch_cutoff {Txn : Type} (env : MvccEnv Txn) (ctx : Context)
    (txn_status : List (Nat × Nat)) (scan_key : Option Key)
    (key_locks : List (Key × MvccLock)) (lm : Bool) (txn : Txn)
    (hnew : env.mkTxn 0 (!ctx.not_fill_cache) = Except.ok txn)
    (hok : ∀ s ∈ runSteps env (resolveTrace env txn_status txn key_locks),
      stepOk s = true) :
    process_write_impl env (Command.ResolveLock ctx txn_status scan_key key_locks) lm
      = (WOut.ok ⟨ctx,
          env.into_modifies
            (txnAfterSteps txn (runSteps env (resolveTrace env txn_status txn key_locks))),
          key_locks.length,
          (match runScanKey env scan_key (resolveTrace env txn_status txn key_locks) with
            | none => ProcessResult.Res
            | some k =>
              ProcessResult.NextCommand (Command.ResolveLock ctx txn_status (some k) [])),
          none⟩,
         Event.newTxn 0 (!ctx.not_fill_cache)
           :: (joinEvents (runSteps env (resolveTrace env txn_status txn key_locks))
             ++ wakeAll ((runSteps env (resolveTrace env txn_status txn key_locks)).foldl
                  stepUpdate []) lm))
    ∧ ∀ s ∈ (runSteps env (resolveTrace env txn_status txn key_locks)).dropLast,
        env.write_size s.txnAfter < MAX_TXN_WRITE_SIZE := by
  constructor
  · simp only [process_write_impl, hnew,
      resolveLoop_run env txn_status key_locks txn [] scan_key hok]
    rfl
  · exact runSteps_bound env (resolveTrace env txn_status txn key_locks)

/-- Witness for C5: with envC one committed key already reaches the budget,
so the loop stops after the first of two pairs and hands the current key
back as the scan_key of a NextCommand; the second run has no cutoff and
ends with Res. -/
theorem resolve_lock_batch_cutoff_witness :
    (process_write_impl envC
        (Command.ResolveLock ctx0 [(6, 9)] none [(1, ⟨6⟩), (2, ⟨6⟩)]) true
      = (WOut.ok ⟨ctx0, [0, 1], 2,
          ProcessResult.NextCommand (Command.ResolveLock ctx0 [(6, 9)] (some 1) []),
          none⟩,
         [Event.newTxn 0 true, Event.evSetStartTs 6, Event.evCommit 1 9,
          Event.wakeUp 6 [10] 9 true]))
    ∧ (process_write_impl envT
        (Command.ResolveLock ctx0 [(6, 9)] none [(1, ⟨6⟩), (2, ⟨6⟩)]) true
      = (WOut.ok ⟨ctx0, [0, 1, 2], 2, ProcessResult.Res, none⟩,
         [Event.newTxn 0 true, Event.evSetStartTs 6, Event.evCommit 1 9,
          Event.evSetStartTs 6, Event.evCommit 2 9,
          Event.wakeUp 6 [10, 20] 9 true])) := by
  constructor
  · have h := (resolve_lock_batch_cutoff envC ctx0 [(6, 9)] none
      [(1, ⟨6⟩), (2, ⟨6⟩)] true 1 (by rfl) (by decide)).1
    rw [h]
    rfl
  · have h := (resolve_lock_batch_cutoff envT ctx0 [(6, 9)] none
      [(1, ⟨6⟩), (2, ⟨6⟩)] true 1 (by rfl) (by decide)).1
    rw [h]
    rfl

/-! ## Wake-up grouping (claim C8) -/

def isWakeUpEv : Event → Bool
  | Event.wakeUp _ _ _ _ => true
  | _ => false

/-- The wake_up calls recorded in a log, in order. -/
def wakeUps (log : List Event) : List Event := log.filter isWakeUpEv

def evWakeStartTs : Event → Nat
  | Event.wakeUp start_ts _ _ _ => start_ts
  | _ => 0

/-- The locks actually freed among a list of per-key results. -/
def freedOf (rs : List (Except MvccError (Option ReleasedLock))) : List ReleasedLock :=
  (okReleased rs).filterMap id

def assocKeys (m : List (Nat × ReleasedLocks)) : List Nat := m.map Prod.fst

/-- First-occurrence deduplication, with an accumulator of already-seen
elements. -/
def firstDedupAux (seen : List Nat) : List Nat → List Nat
  | [] => []
  | a :: l => if a ∈ seen then firstDedupAux seen l else a :: firstDedupAux (a :: seen) l

def firstDedup (l : List Nat) : List Nat := firstDedupAux [] l

theorem push_start_ts (s : ReleasedLocks) (o : Option ReleasedLock) :
    (s.push o).start_ts = s.start_ts ∧ (s.push o).commit_ts = s.commit_ts := by
  cases o <;> simp [ReleasedLocks.push]

theorem wake_up_pushAll (a c : Nat) (os : List (Option ReleasedLock)) :
    (pushAll (ReleasedLocks.mk' a c) os).wake_up true
      = [Event.wakeUp a ((os.filterMap id).map ReleasedLock.hash) c
          ((os.filterMap id).any ReleasedLock.pessimistic)] := by
  have h1 := pushAll_spec os (ReleasedLocks.mk' a c)
  have h2 := pushAll_start_ts os (ReleasedLocks.mk' a c)
  simp only [ReleasedLocks.wake_up, if_true]
  rw [h2.1, h2.2, h1.1, h1.2]
  simp [ReleasedLocks.mk']

theorem wakeUps_single_log (a : Nat) (b : Bool) (evs : List Event) (s : ReleasedLocks)
    (h : ∀ e ∈ evs, isWakeUpEv e = false) :
    wakeUps (Event.newTxn a b :: (evs ++ s.wake_up true))
      = [Event.wakeUp s.start_ts s.hashes s.commit_ts s.pessimistic] := by
  have hnil : evs.filter isWakeUpEv = [] := by
    rw [List.filter_eq_nil]
    intro e he
    simp [h e he]
  simp [wakeUps, List.filter_append, List.filter_cons, isWakeUpEv, hnil,
    ReleasedLocks.wake_up]

theorem wakeUps_map_ev (ev : Key → Event) (h : ∀ k, isWakeUpEv (ev k) = false)
    (keys : List Key) : ∀ e ∈ keys.map ev, isWakeUpEv e = false := by
  intro e he
  obtain ⟨k, _, hk⟩ := List.mem_map.mp he
  rw [← hk]
  exact h k

theorem wakeUps_joinEvents {Txn : Type} (ss : List (RStep Txn)) :
    ∀ e ∈ joinEvents ss, isWakeUpEv e = false := by
  induction ss with
  | nil => simp [joinEvents]
  | cons s ss ih =>
    intro e he
    rw [show joinEvents (s :: ss) = stepEvents s ++ joinEvents ss from rfl] at he
    rcases List.mem_append.mp he with h1 | h2
    · rcases s with ⟨k, ts, act, t⟩
      cases act with
      | rolledBack r =>
        simp [stepEvents] at h1
        rcases h1 with h1 | h1 <;> simp [h1, isWakeUpEv]
      | committed c r =>
        simp [stepEvents] at h1
        rcases h1 with h1 | h1 <;> simp [h1, isWakeUpEv]
      | invalidTso c =>
        simp [stepEvents] at h1
        simp [h1, isWakeUpEv]
      | statusMissing =>
        simp [stepEvents] at h1
        simp [h1, isWakeUpEv]
    · exact ih e h2

theorem wakeUps_wakeAll (m : List (Nat × ReleasedLocks)) :
    wakeUps (wakeAll m true)
      = m.map (fun p => Event.wakeUp p.2.start_ts p.2.hashes p.2.commit_ts p.2.pessimistic) := by
  induction m with
  | nil => simp [wakeAll, wakeUps]
  | cons p m ih =>
    rw [show wakeAll (p :: m) true = p.2.wake_up true ++ wakeAll m true from rfl]
    rw [show wakeUps (p.2.wake_up true ++ wakeAll m true)
      = wakeUps (p.2.wake_up true) ++ wakeUps (wakeAll m true) from by
        simp [wakeUps, List.filter_append]]
    rw [ih]
    simp [ReleasedLocks.wake_up, wakeUps, isWakeUpEv]

theorem updateReleased_keys (m : List (Nat × ReleasedLocks)) (ts c : Nat)
    (r : Option ReleasedLock) :
    assocKeys (updateReleased m ts c r)
      = if ts ∈ assocKeys m then assocKeys m else assocKeys m ++ [ts] := by
  induction m with
  | nil => simp [updateReleased, assocKeys]
  | cons p m ih =>
    rcases p with ⟨k, s⟩
    by_cases hk : k = ts
    · subst hk
      simp [updateReleased, assocKeys]
    · rw [show updateReleased ((k, s) :: m) ts c r
        = (k, s) :: updateReleased m ts c r from by simp [updateReleased, hk]]
      rw [show assocKeys ((k, s) :: updateReleased m ts c r)
        = k :: assocKeys (updateReleased m ts c r) from rfl]
      rw [show assocKeys ((k, s) :: m) = k :: assocKeys m from rfl]
      rw [ih]
      by_cases hmem : ts ∈ assocKeys m
      · rw [if_pos hmem, if_pos (List.mem_cons.mpr (Or.inr hmem))]
      · rw [if_neg hmem, if_neg (by
          intro hc
          rcases List.mem_cons.mp hc with hc | hc
          · exact hk hc.symm
          · exact hmem hc)]
        simp

theorem firstDedupAux_congr (l : List Nat) :
    ∀ s1 s2, (∀ a, a ∈ s1 ↔ a ∈ s2) → firstDedupAux s1 l = firstDedupAux s2 l := by
  induction l with
  | nil => intro s1 s2 _; rfl
  | cons a l ih =>
    intro s1 s2 h
    by_cases ha : a ∈ s1
    · rw [show firstDedupAux s1 (a :: l) = firstDedupAux s1 l from by
        simp [firstDedupAux, ha]]
      rw [show firstDedupAux s2 (a :: l) = firstDedupAux s2 l from by
        simp [firstDedupAux, (h a).mp ha]]
      exact ih s1 s2 h
    · have ha2 : a ∉ s2 := fun hc => ha ((h a).mpr hc)
      rw [show firstDedupAux s1 (a :: l) = a :: firstDedupAux (a :: s1) l from by
        simp [firstDedupAux, ha]]
      rw [show firstDedupAux s2 (a :: l) = a :: firstDedupAux (a :: s2) l from by
        simp [firstDedupAux, ha2]]
      rw [ih (a :: s1) (a :: s2) (by intro x; simp [h x])]

theorem foldl_stepUpdate_keys {Txn : Type} (steps : List (RStep Txn)) :
    ∀ m, assocKeys (steps.foldl stepUpdate m)
      = assocKeys m ++ firstDedupAux (assocKeys m) (steps.map RStep.lockTs) := by
  induction steps with
  | nil => intro m; simp [firstDedupAux]
  | cons s steps ih =>
    intro m
    rw [List.foldl_cons, ih (stepUpdate m s)]
    rw [show stepUpdate m s
      = updateReleased m s.lockTs (stepCommitTs s.action) (stepRel s.action) from rfl]
    rw [updateReleased_keys]
    by_cases hmem : s.lockTs ∈ assocKeys m
    · rw [if_pos hmem]
      rw [show (s :: steps).map RStep.lockTs = s.lockTs :: steps.map RStep.lockTs from rfl]
      rw [show firstDedupAux (assocKeys m) (s.lockTs :: steps.map RStep.lockTs)
        = firstDedupAux (assocKeys m) (steps.map RStep.lockTs) from by
          simp [firstDedupAux, hmem]]
    · rw [if_neg hmem]
      rw [show (s :: steps).map RStep.lockTs = s.lockTs :: steps.map RStep.lockTs from rfl]
      rw [show firstDedupAux (assocKeys m) (s.lockTs :: steps.map RStep.lockTs)
        = s.lockTs :: firstDedupAux (s.lockTs :: assocKeys m) (steps.map RStep.lockTs) from by
          simp [firstDedupAux, hmem]]
      rw [firstDedupAux_congr (steps.map RStep.lockTs) (assocKeys m ++ [s.lockTs])
        (s.lockTs :: assocKeys m) (by intro x; simp; tauto)]
      simp

/-- Each aggregator entry carries the start_ts it is keyed by. -/
def goodMap (m : List (Nat × ReleasedLocks)) : Prop :=
  ∀ p ∈ m, (p.2 : ReleasedLocks).start_ts = p.1

theorem updateReleased_good (m : List (Nat × ReleasedLocks)) (ts c : Nat)
    (r : Option ReleasedLock) (hm : goodMap m) : goodMap (updateReleased m ts c r) := by
  induction m with
  | nil =>
    intro p hp
    simp [updateReleased] at hp
    subst hp
    simp [(push_start_ts _ _).1, ReleasedLocks.mk']
  | cons q m ih =>
    rcases q with ⟨k, s⟩
    by_cases hk : k = ts
    · subst hk
      intro p hp
      simp [updateReleased] at hp
      rcases hp with hp | hp
      · subst hp
        simp [(push_start_ts _ _).1]
        exact hm (k, s) (List.mem_cons_self _ _)
      · exact hm p (List.mem_cons_of_mem _ hp)
    · intro p hp
      rw [show updateReleased ((k, s) :: m) ts c r
        = (k, s) :: updateReleased m ts c r from by simp [updateReleased, hk]] at hp
      rcases List.mem_cons.mp hp with hp | hp
      · subst hp
        exact hm (k, s) (List.mem_cons_self _ _)
      · exact ih (fun q hq => hm q (List.mem_cons_of_mem _ hq)) p hp

theorem foldl_stepUpdate_good {Txn : Type} (steps : List (RStep Txn)) :
    ∀ m, goodMap m → goodMap (steps.foldl stepUpdate m) := by
  induction steps with
  | nil => intro m hm; exact hm
  | cons s steps ih =>
    intro m hm
    exact ih _ (updateReleased_good m s.lockTs (stepCommitTs s.action)
      (stepRel s.action) hm)

theorem firstDedupAux_mem (l : List Nat) :
    ∀ seen a, a ∈ firstDedupAux seen l ↔ (a ∈ l ∧ a ∉ seen) := by
  induction l with
  | nil => intro seen a; simp [firstDedupAux]
  | cons b l ih =>
    intro seen a
    by_cases hb : b ∈ seen
    · rw [show firstDedupAux seen (b :: l) = firstDedupAux seen l from by
        simp [firstDedupAux, hb]]
      rw [ih seen a]
      constructor
      · rintro ⟨h1, h2⟩; exact ⟨List.mem_cons_of_mem _ h1, h2⟩
      · rintro ⟨h1, h2⟩
        rcases List.mem_cons.mp h1 with h1 | h1
        · subst h1; exact absurd hb h2
        · exact ⟨h1, h2⟩
    · rw [show firstDedupAux seen (b :: l) = b :: firstDedupAux (b :: seen) l from by
        simp [firstDedupAux, hb]]
      rw [List.mem_cons, ih (b :: seen) a]
      constructor
      · rintro (h1 | ⟨h1, h2⟩)
        · subst h1; exact ⟨List.mem_cons_self _ _, hb⟩
        · exact ⟨List.mem_cons_of_mem _ h1, fun hc => h2 (List.mem_cons_of_mem _ hc)⟩
      · rintro ⟨h1, h2⟩
        by_cases hab : a = b
        · exact Or.inl hab
        · rcases List.mem_cons.mp h1 with h1 | h1
          · exact absurd h1 hab
          · exact Or.inr ⟨h1, by simp [hab, h2]⟩

theorem firstDedupAux_nodup (l : List Nat) :
    ∀ seen, (firstDedupAux seen l).Nodup := by
  induction l with
  | nil => intro seen; simp [firstDedupAux]
  | cons b l ih =>
    intro seen
    by_cases hb : b ∈ seen
    · rw [show firstDedupAux seen (b :: l) = firstDedupAux seen l from by
        simp [firstDedupAux, hb]]
      exact ih seen
    · rw [show firstDedupAux seen (b :: l) = b :: firstDedupAux (b :: seen) l from by
        simp [firstDedupAux, hb]]
      refine List.nodup_cons.mpr ⟨?_, ih (b :: seen)⟩
      intro hc
      exact ((firstDedupAux_mem l (b :: seen) b).mp hc).2 (List.mem_cons_self _ _)

/-- Association-list lookup into the per-start_ts aggregator map. -/
def lookupRL : List (Nat × ReleasedLocks) → Nat → Option ReleasedLocks
  | [], _ => none
  | (k, v) :: rest, t => if k = t then some v else lookupRL rest t

/-- The released-lock results pushed for transaction t: those of the steps
whose lock carries start_ts t, in processing order. -/
def relsOf {Txn : Type} (t : Nat) (steps : List (RStep Txn)) : List (Option ReleasedLock) :=
  (steps.filter (fun s => s.lockTs = t)).map (fun s => stepRel s.action)

/-- The commit_ts the aggregator for transaction t was created with: that of
the first processed step of t. -/
def firstActionTs {Txn : Type} (t : Nat) (steps : List (RStep Txn)) : Nat :=
  match steps.find? (fun s => s.lockTs = t) with
  | some s => stepCommitTs s.action
  | none => 0

theorem lookupRL_updateReleased (m : List (Nat × ReleasedLocks)) (ts c t : Nat)
    (r : Option ReleasedLock) :
    lookupRL (updateReleased m ts c r) t
      = if t = ts then
          (match lookupRL m ts with
           | some rl => some (rl.push r)
           | none => some ((ReleasedLocks.mk' ts c).push r))
        else lookupRL m t := by
  induction m with
  | nil =>
    rw [show updateReleased [] ts c r
      = [(ts, (ReleasedLocks.mk' ts c).push r)] from rfl]
    rw [show lookupRL [] ts = none from rfl]
    by_cases ht : t = ts
    · rw [if_pos ht]
      have hts : ts = t := ht.symm
      simp [lookupRL, hts]
    · rw [if_neg ht]
      have hts : ¬ ts = t := fun h => ht h.symm
      simp [lookupRL, hts]
  | cons p m ih =>
    rcases p with ⟨k, v⟩
    by_cases hk : k = ts
    · rw [show updateReleased ((k, v) :: m) ts c r = (k, v.push r) :: m from by
        simp [updateReleased, hk]]
      rw [show lookupRL ((k, v) :: m) ts = some v from by simp [lookupRL, hk]]
      by_cases ht : t = ts
      · have hkt : k = t := hk.trans ht.symm
        rw [if_pos ht]
        rw [show lookupRL ((k, v.push r) :: m) t = some (v.push r) from by
          simp [lookupRL, hkt]]
      · have hkt : ¬ k = t := fun h => ht (h ▸ hk)
        rw [if_neg ht]
        rw [show lookupRL ((k, v.push r) :: m) t = lookupRL m t from by
          simp [lookupRL, hkt]]
        rw [show lookupRL ((k, v) :: m) t = lookupRL m t from by
          simp [lookupRL, hkt]]
    · rw [show updateReleased ((k, v) :: m) ts c r
        = (k, v) :: updateReleased m ts c r from by simp [updateReleased, hk]]
      rw [show lookupRL ((k, v) :: m) ts = lookupRL m ts from by simp [lookupRL, hk]]
      by_cases hkt : k = t
      · have hts : ¬ t = ts := fun h => hk (hkt.trans h)
        rw [if_neg hts]
        rw [show lookupRL ((k, v) :: updateReleased m ts c r) t = some v from by
          simp [lookupRL, hkt]]
        rw [show lookupRL ((k, v) :: m) t = some v from by simp [lookupRL, hkt]]
      · rw [show lookupRL ((k, v) :: updateReleased m ts c r) t
          = lookupRL (updateReleased m ts c r) t from by simp [lookupRL, hkt]]
        rw [show lookupRL ((k, v) :: m) t = lookupRL m t from by simp [lookupRL, hkt]]
        exact ih

theorem lookupRL_foldl_stepUpdate {Txn : Type} (steps : List (RStep Txn)) :
    ∀ (m : List (Nat × ReleasedLocks)) (t : Nat),
    lookupRL (steps.foldl stepUpdate m) t
      = match lookupRL m t with
        | some rl => some (pushAll rl (relsOf t steps))
        | none =>
          if steps.any (fun s => s.lockTs = t) then
            some (pushAll (ReleasedLocks.mk' t (firstActionTs t steps))
              (relsOf t steps))
          else none := by
  induction steps with
  | nil =>
    intro m t
    rw [List.foldl_nil]
    cases hm : lookupRL m t with
    | some rl => simp [relsOf, pushAll]
    | none => simp [relsOf]
  | cons s steps ih =>
    intro m t
    rw [List.foldl_cons, ih (stepUpdate m s) t]
    rw [show stepUpdate m s
      = updateReleased m s.lockTs (stepCommitTs s.action) (stepRel s.action) from rfl]
    rw [lookupRL_updateReleased]
    by_cases ht : t = s.lockTs
    · rw [ht, if_pos rfl]
      have hrels : relsOf s.lockTs (s :: steps)
          = stepRel s.action :: relsOf s.lockTs steps := by
        simp [relsOf, List.filter_cons]
      have hfind : firstActionTs s.lockTs (s :: steps) = stepCommitTs s.action := by
        simp [firstActionTs, List.find?]
      have hany : ((s :: steps).any (fun x => x.lockTs = s.lockTs)) = true := by
        simp [List.any_cons]
      cases hm : lookupRL m s.lockTs with
      | some rl =>
        rw [hrels]
        rfl
      | none =>
        rw [if_pos hany, hfind, hrels]
        rfl
    · rw [if_neg ht]
      have hsl : ¬ s.lockTs = t := fun h => ht h.symm
      have hrels : relsOf t (s :: steps) = relsOf t steps := by
        simp [relsOf, List.filter_cons, hsl]
      have hfind : firstActionTs t (s :: steps) = firstActionTs t steps := by
        simp [firstActionTs, List.find?, hsl]
      have hany : ((s :: steps).any (fun x => x.lockTs = t))
          = (steps.any (fun x => x.lockTs = t)) := by
        simp [List.any_cons, hsl]
      cases hm : lookupRL m t with
      | some rl => rw [hrels]
      | none => rw [hrels, hfind, hany]

theorem lookupRL_of_mem_nodup (m : List (Nat × ReleasedLocks))
    (hnd : (assocKeys m).Nodup) :
    ∀ p ∈ m, lookupRL m p.1 = some p.2 := by
  induction m with
  | nil => intro p hp; simp at hp
  | cons q m ih =>
    rcases q with ⟨k, v⟩
    rw [show assocKeys ((k, v) :: m) = k :: assocKeys m from rfl] at hnd
    obtain ⟨hk, hnd'⟩ := List.nodup_cons.mp hnd
    intro p hp
    rcases List.mem_cons.mp hp with hp | hp
    · subst hp
      simp [lookupRL]
    · have hne : k ≠ p.1 := by
        intro hkp
        exact hk (hkp ▸ List.mem_map_of_mem Prod.fst hp)
      rw [show lookupRL ((k, v) :: m) p.1 = lookupRL m p.1 from by simp [lookupRL, hne]]
      exact ih hnd' p hp

/-- Claim C8: wake-up grouping.  (1) an aggregator accumulates exactly the
hashes of the freed locks (push appends only when the released lock is
present) and ORs their pessimistic flags; (2) wake_up issues exactly one
call when a lock manager is present and none otherwise; (3-7) Commit,
Rollback, Cleanup, PessimisticRollback and ResolveLockLite each issue
exactly one wake_up for the transaction, carrying its start_ts and exactly
the freed hashes; (8) ResolveLock issues one wake_up per distinct start_ts
among the processed pairs, in first-occurrence order and without
duplicates; (9) those start_ts are exactly the distinct ones occurring;
(10) each of ResolveLock's per-start_ts wake-up calls carries exactly the
hashes of the locks this command freed for that transaction, the commit_ts
its aggregator was created with, and the OR of the freed locks'
pessimistic flags. -/
theorem wake_up_grouping {Txn : Type} (env : MvccEnv Txn) :
    (∀ (s : ReleasedLocks) (os : List (Option ReleasedLock)),
      (pushAll s os).hashes = s.hashes ++ (os.filterMap id).map ReleasedLock.hash
      ∧ (pushAll s os).pessimistic
          = (s.pessimistic || (os.filterMap id).any ReleasedLock.pessimistic)
      ∧ (pushAll s os).start_ts = s.start_ts
      ∧ (pushAll s os).commit_ts = s.commit_ts)
    ∧ (∀ s : ReleasedLocks,
      s.wake_up true = [Event.wakeUp s.start_ts s.hashes s.commit_ts s.pessimistic]
      ∧ s.wake_up false = [])
    ∧ (∀ (ctx : Context) (keys : List Key) (lock_ts commit_ts : Nat) (txn : Txn),
      lock_ts < commit_ts →
      env.mkTxn lock_ts (!ctx.not_fill_cache) = Except.ok txn →
      (∀ r ∈ releaseResults (fun t k => env.commit t k commit_ts) txn keys,
        isErr r = false) →
      wakeUps ((process_write_impl env
          (Command.Commit ctx keys lock_ts commit_ts) true).2)
        = [Event.wakeUp lock_ts
            ((freedOf (releaseResults (fun t k => env.commit t k commit_ts) txn keys)).map
              ReleasedLock.hash)
            commit_ts
            ((freedOf (releaseResults (fun t k => env.commit t k commit_ts) txn keys)).any
              ReleasedLock.pessimistic)])
    ∧ (∀ (ctx : Context) (keys : List Key) (start_ts : Nat) (txn : Txn),
      env.mkTxn start_ts (!ctx.not_fill_cache) = Except.ok txn →
      (∀ r ∈ releaseResults env.rollback txn keys, isErr r = false) →
      wakeUps ((process_write_impl env (Command.Rollback ctx keys start_ts) true).2)
        = [Event.wakeUp start_ts
            ((freedOf (releaseResults env.rollback txn keys)).map ReleasedLock.hash)
            0
            ((freedOf (releaseResults env.rollback txn keys)).any ReleasedLock.pessimistic)])
    ∧ (∀ (ctx : Context) (key : Key) (start_ts current_ts : Nat) (txn txn' : Txn)
        (rel : Option ReleasedLock),
      env.mkTxn start_ts (!ctx.not_fill_cache) = Except.ok txn →
      env.cleanup txn key current_ts = (txn', Except.ok rel) →
      wakeUps ((process_write_impl env
          (Command.Cleanup ctx key start_ts current_ts) true).2)
        = [Event.wakeUp start_ts (([rel].filterMap id).map ReleasedLock.hash) 0
            (([rel].filterMap id).any ReleasedLock.pessimistic)])
    ∧ (∀ (ctx : Context) (keys : List Key) (start_ts for_update_ts : Nat) (txn : Txn),
      env.mkTxn start_ts (!ctx.not_fill_cache) = Except.ok txn →
      (∀ r ∈ releaseResults (fun t k => env.pessimistic_rollback t k for_update_ts)
          txn keys, isErr r = false) →
      wakeUps ((process_write_impl env
          (Command.PessimisticRollback ctx keys start_ts for_update_ts) true).2)
        = [Event.wakeUp start_ts
            ((freedOf (releaseResults
                (fun t k => env.pessimistic_rollback t k for_update_ts) txn keys)).map
              ReleasedLock.hash)
            0
            ((freedOf (releaseResults
                (fun t k => env.pessimistic_rollback t k for_update_ts) txn keys)).any
              ReleasedLock.pessimistic)])
    ∧ (∀ (ctx : Context) (start_ts commit_ts : Nat) (resolve_keys : List Key) (txn : Txn),
      env.mkTxn start_ts (!ctx.not_fill_cache) = Except.ok txn →
      (∀ r ∈ releaseResults
          (fun t k => if 0 < commit_ts then env.commit t k commit_ts else env.rollback t k)
          txn resolve_keys, isErr r = false) →
      wakeUps ((process_write_impl env
          (Command.ResolveLockLite ctx start_ts commit_ts resolve_keys) true).2)
        = [Event.wakeUp start_ts
            ((freedOf (releaseResults
                (fun t k => if 0 < commit_ts then env.commit t k commit_ts
                  else env.rollback t k) txn resolve_keys)).map ReleasedLock.hash)
            commit_ts
            ((freedOf (releaseResults
                (fun t k => if 0 < commit_ts then env.commit t k commit_ts
                  else env.rollback t k) txn resolve_keys)).any ReleasedLock.pessimistic)])
    ∧ (∀ (ctx : Context) (txn_status : List (Nat × Nat)) (scan_key : Option Key)
        (key_locks : List (Key × MvccLock)) (txn : Txn),
      env.mkTxn 0 (!ctx.not_fill_cache) = Except.ok txn →
      (∀ s ∈ runSteps env (resolveTrace env txn_status txn key_locks), stepOk s = true) →
      (wakeUps ((process_write_impl env
          (Command.ResolveLock ctx txn_status scan_key key_locks) true).2)).map evWakeStartTs
        = firstDedup ((runSteps env (resolveTrace env txn_status txn key_locks)).map
            RStep.lockTs)
      ∧ ((wakeUps ((process_write_impl env
          (Command.ResolveLock ctx txn_status scan_key key_locks) true).2)).map
            evWakeStartTs).Nodup)
    ∧ (∀ (l : List Nat) (t : Nat), t ∈ firstDedup l ↔ t ∈ l)
    ∧ (∀ (ctx : Context) (txn_status : List (Nat × Nat)) (scan_key : Option Key)
        (key_locks : List (Key × MvccLock)) (txn : Txn),
      env.mkTxn 0 (!ctx.not_fill_cache) = Except.ok txn →
      (∀ s ∈ runSteps env (resolveTrace env txn_status txn key_locks), stepOk s = true) →
      wakeUps ((process_write_impl env
          (Command.ResolveLock ctx txn_status scan_key key_locks) true).2)
        = (firstDedup ((runSteps env (resolveTrace env txn_status txn key_locks)).map
            RStep.lockTs)).map (fun t =>
              Event.wakeUp t
                (((relsOf t (runSteps env
                    (resolveTrace env txn_status txn key_locks))).filterMap id).map
                  ReleasedLock.hash)
                (firstActionTs t (runSteps env (resolveTrace env txn_status txn key_locks)))
                (((relsOf t (runSteps env
                    (resolveTrace env txn_status txn key_locks))).filterMap id).any
                  ReleasedLock.pessimistic))) := by
  have hsingle : ∀ (a : Nat) (b : Bool) (evs : List Event)
      (base : ReleasedLocks) (os : List (Option ReleasedLock)),
      (∀ e ∈ evs, isWakeUpEv e = false) →
      wakeUps (Event.newTxn a b :: (evs ++ (pushAll base os).wake_up true))
        = [Event.wakeUp base.start_ts
            (base.hashes ++ (os.filterMap id).map ReleasedLock.hash)
            base.commit_ts
            (base.pessimistic || (os.filterMap id).any ReleasedLock.pessimistic)] := by
    intro a b evs base os hevs
    rw [wakeUps_single_log a b evs (pushAll base os) hevs]
    rw [(pushAll_start_ts os base).1, (pushAll_start_ts os base).2,
      (pushAll_spec os base).1, (pushAll_spec os base).2]
  refine ⟨?_, ?_, ?_, ?_, ?_, ?_, ?_, ?_, ?_, ?_⟩
  · intro s os
    exact ⟨(pushAll_spec os s).1, (pushAll_spec os s).2,
      (pushAll_start_ts os s).1, (pushAll_start_ts os s).2⟩
  · intro s
    constructor <;> simp [ReleasedLocks.wake_up]
  · intro ctx keys lock_ts commit_ts txn hlt hnew hok
    have hnle : ¬ commit_ts ≤ lock_ts := by omega
    simp only [process_write_impl, if_neg hnle, hnew,
      releaseLoop_ok (fun t k => env.commit t k commit_ts)
        (fun k => Event.evCommit k commit_ts) keys txn
        (ReleasedLocks.mk' lock_ts commit_ts) hok]
    have h := hsingle lock_ts (!ctx.not_fill_cache)
      (keys.map fun k => Event.evCommit k commit_ts)
      (ReleasedLocks.mk' lock_ts commit_ts)
      (okReleased (releaseResults (fun t k => env.commit t k commit_ts) txn keys))
      (wakeUps_map_ev (fun k => Event.evCommit k commit_ts) (fun k => rfl) keys)
    simp only [List.cons_append] at h ⊢
    rw [h]
    simp [ReleasedLocks.mk', freedOf]
  · intro ctx keys start_ts txn hnew hok
    simp only [process_write_impl, hnew,
      releaseLoop_ok env.rollback Event.evRollback keys txn
        (ReleasedLocks.mk' start_ts 0) hok]
    have h := hsingle start_ts (!ctx.not_fill_cache) (keys.map Event.evRollback)
      (ReleasedLocks.mk' start_ts 0)
      (okReleased (releaseResults env.rollback txn keys))
      (wakeUps_map_ev Event.evRollback (fun k => rfl) keys)
    simp only [List.cons_append] at h ⊢
    rw [h]
    simp [ReleasedLocks.mk', freedOf]
  · intro ctx key start_ts current_ts txn txn' rel hnew hcl
    have h := hsingle start_ts (!ctx.not_fill_cache) [Event.evCleanup key current_ts]
      (ReleasedLocks.mk' start_ts 0) [rel] (by intro e he; simp at he; simp [he, isWakeUpEv])
    simp only [process_write_impl, hnew, hcl]
    simp only [List.cons_append] at h ⊢
    rw [show (ReleasedLocks.mk' start_ts 0).push rel
      = pushAll (ReleasedLocks.mk' start_ts 0) [rel] from rfl]
    rw [h]
    simp [ReleasedLocks.mk']
  · intro ctx keys start_ts for_update_ts txn hnew hok
    simp only [process_write_impl, Bool.not_true]
    rw [if_neg (show ¬ (false = true) by simp)]
    simp only [hnew,
      releaseLoop_ok (fun t k => env.pessimistic_rollback t k for_update_ts)
        (fun k => Event.evPessimisticRollback k for_update_ts) keys txn
        (ReleasedLocks.mk' start_ts 0) hok]
    have h := hsingle start_ts (!ctx.not_fill_cache)
      (keys.map fun k => Event.evPessimisticRollback k for_update_ts)
      (ReleasedLocks.mk' start_ts 0)
      (okReleased (releaseResults
        (fun t k => env.pessimistic_rollback t k for_update_ts) txn keys))
      (wakeUps_map_ev (fun k => Event.evPessimisticRollback k for_update_ts)
        (fun k => rfl) keys)
    simp only [List.cons_append] at h ⊢
    rw [h]
    simp [ReleasedLocks.mk', freedOf]
  · intro ctx start_ts commit_ts resolve_keys txn hnew hok
    simp only [process_write_impl, hnew,
      releaseLoop_ok
        (fun t k => if 0 < commit_ts then env.commit t k commit_ts else env.rollback t k)
        (fun k => if 0 < commit_ts then Event.evCommit k commit_ts else Event.evRollback k)
        resolve_keys txn (ReleasedLocks.mk' start_ts commit_ts) hok]
    have h := hsingle start_ts (!ctx.not_fill_cache)
      (resolve_keys.map fun k =>
        if 0 < commit_ts then Event.evCommit k commit_ts else Event.evRollback k)
      (ReleasedLocks.mk' start_ts commit_ts)
      (okReleased (releaseResults
        (fun t k => if 0 < commit_ts then env.commit t k commit_ts else env.rollback t k)
        txn resolve_keys))
      (wakeUps_map_ev
        (fun k => if 0 < commit_ts then Event.evCommit k commit_ts else Event.evRollback k)
        (fun k => by by_cases hc : 0 < commit_ts <;> simp [hc, isWakeUpEv])
        resolve_keys)
    simp only [List.cons_append] at h ⊢
    rw [h]
    simp [ReleasedLocks.mk', freedOf]
  · intro ctx txn_status scan_key key_locks txn hnew hok
    have hrun := resolveLoop_run env txn_status key_locks txn [] scan_key hok
    have hlog : (process_write_impl env
        (Command.ResolveLock ctx txn_status scan_key key_locks) true).2
        = Event.newTxn 0 (!ctx.not_fill_cache)
          :: (joinEvents (runSteps env (resolveTrace env txn_status txn key_locks))
            ++ wakeAll ((runSteps env (resolveTrace env txn_status txn key_locks)).foldl
                stepUpdate []) true) := by
      simp only [process_write_impl, hnew, hrun]
      rfl
    have hjoin : (joinEvents (runSteps env
        (resolveTrace env txn_status txn key_locks))).filter isWakeUpEv = [] := by
      rw [List.filter_eq_nil]
      intro e he
      simp [wakeUps_joinEvents _ e he]
    have hfilter : wakeUps ((process_write_impl env
        (Command.ResolveLock ctx txn_status scan_key key_locks) true).2)
        = wakeUps (wakeAll ((runSteps env
            (resolveTrace env txn_status txn key_locks)).foldl stepUpdate []) true) := by
      rw [hlog]
      simp [wakeUps, List.filter_append, List.filter_cons, isWakeUpEv, hjoin]
    have hgood : goodMap ((runSteps env
        (resolveTrace env txn_status txn key_locks)).foldl stepUpdate []) :=
      foldl_stepUpdate_good _ [] (by intro p hp; simp at hp)
    have hmapts : ∀ (m : List (Nat × ReleasedLocks)), goodMap m →
        (m.map (fun p => Event.wakeUp p.2.start_ts p.2.hashes p.2.commit_ts
          p.2.pessimistic)).map evWakeStartTs = assocKeys m := by
      intro m hm
      induction m with
      | nil => simp [assocKeys]
      | cons p m ih =>
        rw [List.map_cons, List.map_cons]
        rw [show assocKeys (p :: m) = p.1 :: assocKeys m from rfl]
        rw [ih (fun q hq => hm q (List.mem_cons_of_mem _ hq))]
        rw [show evWakeStartTs (Event.wakeUp p.2.start_ts p.2.hashes p.2.commit_ts
          p.2.pessimistic) = p.2.start_ts from rfl]
        rw [hm p (List.mem_cons_self _ _)]
    have hkeys := foldl_stepUpdate_keys
      (runSteps env (resolveTrace env txn_status txn key_locks)) []
    have hmain : (wakeUps ((process_write_impl env
        (Command.ResolveLock ctx txn_status scan_key key_locks) true).2)).map evWakeStartTs
        = firstDedup ((runSteps env (resolveTrace env txn_status txn key_locks)).map
            RStep.lockTs) := by
      rw [hfilter, wakeUps_wakeAll, hmapts _ hgood, hkeys]
      rw [show assocKeys [] = [] from rfl]
      rfl
    refine ⟨hmain, ?_⟩
    rw [hmain]
    exact firstDedupAux_nodup _ []
  · intro l t
    rw [show firstDedup l = firstDedupAux [] l from rfl, firstDedupAux_mem]
    simp
  · intro ctx txn_status scan_key key_locks txn hnew hok
    have hrun := resolveLoop_run env txn_status key_locks txn [] scan_key hok
    have hlog : (process_write_impl env
        (Command.ResolveLock ctx txn_status scan_key key_locks) true).2
        = Event.newTxn 0 (!ctx.not_fill_cache)
          :: (joinEvents (runSteps env (resolveTrace env txn_status txn key_locks))
            ++ wakeAll ((runSteps env (resolveTrace env txn_status txn key_locks)).foldl
                stepUpdate []) true) := by
      simp only [process_write_impl, hnew, hrun]
      rfl
    have hjoin : (joinEvents (runSteps env
        (resolveTrace env txn_status txn key_locks))).filter isWakeUpEv = [] := by
      rw [List.filter_eq_nil]
      intro e he
      simp [wakeUps_joinEvents _ e he]
    have hfilter : wakeUps ((process_write_impl env
        (Command.ResolveLock ctx txn_status scan_key key_locks) true).2)
        = wakeUps (wakeAll ((runSteps env
            (resolveTrace env txn_status txn key_locks)).foldl stepUpdate []) true) := by
      rw [hlog]
      simp [wakeUps, List.filter_append, List.filter_cons, isWakeUpEv, hjoin]
    have hkeys : assocKeys ((runSteps env
        (resolveTrace env txn_status txn key_locks)).foldl stepUpdate [])
        = firstDedup ((runSteps env (resolveTrace env txn_status txn key_locks)).map
            RStep.lockTs) := by
      rw [foldl_stepUpdate_keys (runSteps env (resolveTrace env txn_status txn key_locks)) []]
      rw [show assocKeys [] = [] from rfl]
      rfl
    have hnd : (assocKeys ((runSteps env
        (resolveTrace env txn_status txn key_locks)).foldl stepUpdate [])).Nodup := by
      rw [hkeys]
      exact firstDedupAux_nodup _ []
    have hchar : ∀ p ∈ (runSteps env
        (resolveTrace env txn_status txn key_locks)).foldl stepUpdate [],
        (p.2 : ReleasedLocks) = pushAll
          (ReleasedLocks.mk' p.1 (firstActionTs p.1
            (runSteps env (resolveTrace env txn_status txn key_locks))))
          (relsOf p.1 (runSteps env (resolveTrace env txn_status txn key_locks))) := by
      intro p hp
      have h1 := lookupRL_of_mem_nodup _ hnd p hp
      have h2 := lookupRL_foldl_stepUpdate
        (runSteps env (resolveTrace env txn_status txn key_locks)) [] p.1
      rw [show lookupRL ([] : List (Nat × ReleasedLocks)) p.1 = none from rfl] at h2
      have hpmem : p.1 ∈ (runSteps env
          (resolveTrace env txn_status txn key_locks)).map RStep.lockTs := by
        have hp1 : p.1 ∈ assocKeys ((runSteps env
            (resolveTrace env txn_status txn key_locks)).foldl stepUpdate []) :=
          List.mem_map_of_mem Prod.fst hp
        rw [hkeys] at hp1
        exact ((firstDedupAux_mem _ [] p.1).mp hp1).1
      have hanyp : (runSteps env (resolveTrace env txn_status txn key_locks)).any
          (fun s => s.lockTs = p.1) = true := by
        rw [List.any_eq_true]
        obtain ⟨s, hs, hts⟩ := List.mem_map.mp hpmem
        exact ⟨s, hs, by simp [hts]⟩
      rw [if_pos hanyp] at h2
      rw [h1] at h2
      exact (Option.some.injEq _ _).mp h2
    rw [hfilter, wakeUps_wakeAll]
    have hcongr : ((runSteps env
        (resolveTrace env txn_status txn key_locks)).foldl stepUpdate []).map
          (fun p => Event.wakeUp p.2.start_ts p.2.hashes p.2.commit_ts p.2.pessimistic)
        = ((runSteps env
            (resolveTrace env txn_status txn key_locks)).foldl stepUpdate []).map
          (fun p => Event.wakeUp p.1
            (((relsOf p.1 (runSteps env
                (resolveTrace env txn_status txn key_locks))).filterMap id).map
              ReleasedLock.hash)
            (firstActionTs p.1 (runSteps env (resolveTrace env txn_status txn key_locks)))
            (((relsOf p.1 (runSteps env
                (resolveTrace env txn_status txn key_locks))).filterMap id).any
              ReleasedLock.pessimistic)) := by
      apply List.map_congr_left
      intro p hp
      rw [hchar p hp]
      rw [(pushAll_start_ts _ _).1, (pushAll_start_ts _ _).2,
        (pushAll_spec _ _).1, (pushAll_spec _ _).2]
      simp [ReleasedLocks.mk']
    rw [hcongr, ← hkeys]
    rw [show assocKeys ((runSteps env
        (resolveTrace env txn_status txn key_locks)).foldl stepUpdate [])
      = ((runSteps env (resolveTrace env txn_status txn key_locks)).foldl
          stepUpdate []).map Prod.fst from rfl]
    rw [List.map_map]
    rfl

/-- Witness for C8: a Commit waking transaction 7 once with both freed
hashes, and a ResolveLock over two transactions issuing exactly one wake_up
per distinct start_ts, in first-occurrence order, each carrying exactly the
hashes freed for that transaction and the OR of their pessimistic flags. -/
theorem wake_up_grouping_witness :
    (wakeUps ((process_write_impl envT (Command.Commit ctx0 [3, 5] 7 9) true).2)
      = [Event.wakeUp 7
          ((freedOf (releaseResults (fun t k => envT.commit t k 9) 1 [3, 5])).map
            ReleasedLock.hash)
          9
          ((freedOf (releaseResults (fun t k => envT.commit t k 9) 1 [3, 5])).any
            ReleasedLock.pessimistic)])
    ∧ (wakeUps ((process_write_impl envT
        (Command.ResolveLock ctx0 [(4, 0), (6, 9)] none
          [(1, ⟨6⟩), (2, ⟨4⟩), (3, ⟨6⟩)]) true).2)).map evWakeStartTs
      = firstDedup ((runSteps envT (resolveTrace envT [(4, 0), (6, 9)] 1
          [(1, ⟨6⟩), (2, ⟨4⟩), (3, ⟨6⟩)])).map RStep.lockTs)
    ∧ wakeUps ((process_write_impl envT
        (Command.ResolveLock ctx0 [(4, 0), (6, 9)] none
          [(1, ⟨6⟩), (2, ⟨4⟩), (3, ⟨6⟩)]) true).2)
      = [Event.wakeUp 6 [10, 30] 9 true, Event.wakeUp 4 [21] 0 false] := by
  refine ⟨?_, ?_, ?_⟩
  · exact (wake_up_grouping envT).2.2.1 ctx0 [3, 5] 7 9 1 (by decide) (by rfl) (by decide)
  · exact ((wake_up_grouping envT).2.2.2.2.2.2.2.1 ctx0 [(4, 0), (6, 9)] none
      [(1, ⟨6⟩), (2, ⟨4⟩), (3, ⟨6⟩)] 1 (by rfl) (by decide)).1
  · have h := (wake_up_grouping envT).2.2.2.2.2.2.2.2.2 ctx0 [(4, 0), (6, 9)] none
      [(1, ⟨6⟩), (2, ⟨4⟩), (3, ⟨6⟩)] 1 (by rfl) (by decide)
    rw [h]
    rfl

/-! ## find_mvcc_infos_by_key (claim C10) -/

/-- Snapshot-scoped MVCC reader operations, as pure functions. -/
structure MvccReaderEnv where
  load_lock : Key → Except MvccError (Option MvccLock)
  seek_write : Key → Nat → Except MvccError (Option (Nat × WriteRec))
  scan_values_in_default : Key → Except MvccError (List (Nat × Value))

/-- The u64 computation ts = commit_ts - 1 of the source: subtraction wraps,
so commit_ts = 0 yields u64::MAX. -/
def u64sub1 (c : Nat) : Nat := if c = 0 then 2 ^ 64 - 1 else c - 1

inductive SeekOut where
  | done (writes : List (Nat × WriteRec))
  | fail (e : MvccError)
  | fuelOut
deriving DecidableEq, Repr

/-- The seek_write loop of find_mvcc_infos_by_key, with explicit fuel:
fuelOut means the loop did not finish within the allotted iterations. -/
def seekWritesAux (r : MvccReaderEnv) (key : Key) :
    Nat → Nat → List (Nat × WriteRec) → SeekOut
  | 0, _, _ => SeekOut.fuelOut
  | fuel + 1, ts, acc =>
    match r.seek_write key ts with
    | .error e => SeekOut.fail e
    | .ok none => SeekOut.done acc
    | .ok (some (commit_ts, w)) =>
      seekWritesAux r key fuel (u64sub1 commit_ts) (acc ++ [(commit_ts, w)])

/-- Embedding of find_mvcc_infos_by_key (process.rs lines 821-843): load the
lock, walk writes back in time, then scan versioned values; none when the
write-walking loop exceeds the fuel. -/
def find_mvcc_infos_by_key (r : MvccReaderEnv) (key : Key) (ts : Nat) (fuel : Nat) :
    Option (Except TxnError
      (Option MvccLock × List (Nat × WriteRec) × List (Nat × Value))) :=
  match r.load_lock key with
  | .error e => some (Except.error (TxnError.Mvcc e))
  | .ok lock =>
    match seekWritesAux r key fuel ts [] with
    | SeekOut.fuelOut => none
    | SeekOut.fail e => some (Except.error (TxnError.Mvcc e))
    | SeekOut.done writes =>
      match r.scan_values_in_default key with
      | .error e => some (Except.error (TxnError.Mvcc e))
      | .ok values => some (Except.ok (lock, writes, values))

/-- A reader whose every seek hits commit_ts = 0: the wrapped subtraction
sends ts to u64::MAX and the loop never finishes. -/
def badReader : MvccReaderEnv where
  load_lock := fun _ => Except.ok none
  seek_write := fun _ _ => Except.ok (some (0, 0))
  scan_values_in_default := fun _ => Except.ok []

theorem seekWritesAux_terminates (r : MvccReaderEnv) (key : Key)
    (hgood : ∀ ts c w, r.seek_write key ts = Except.ok (some (c, w)) → 1 ≤ c ∧ c ≤ ts) :
    ∀ ts fuel acc, ts + 2 ≤ fuel → seekWritesAux r key fuel ts acc ≠ SeekOut.fuelOut := by
  intro ts
  induction ts using Nat.strong_induction_on with
  | _ ts ih =>
    intro fuel acc hfuel
    cases fuel with
    | zero => omega
    | succ f =>
      cases hs : r.seek_write key ts with
      | error e => simp [seekWritesAux, hs]
      | ok o =>
        cases o with
        | none => simp [seekWritesAux, hs]
        | some p =>
          rcases p with ⟨c, w⟩
          obtain ⟨h1, h2⟩ := hgood ts c w hs
          have hsub : u64sub1 c = c - 1 := by
            unfold u64sub1
            rw [if_neg (by omega)]
          have hlt : u64sub1 c < ts := by omega
          have hrec := ih (u64sub1 c) hlt f (acc ++ [(c, w)]) (by omega)
          simpa [seekWritesAux, hs] using hrec

theorem seekWritesAux_badReader :
    ∀ (fuel : Nat) (key ts : Nat) (acc : List (Nat × WriteRec)),
    seekWritesAux badReader key fuel ts acc = SeekOut.fuelOut := by
  intro fuel
  induction fuel with
  | zero => intro key ts acc; rfl
  | succ f ih =>
    intro key ts acc
    simpa [seekWritesAux, badReader] using ih key (u64sub1 0) (acc ++ [(0, 0)])

/-- Claim C10: find_mvcc_infos_by_key terminates for every key and starting
ts provided every seek_write hit satisfies 1 <= commit_ts <= ts: the loop
variable strictly decreases, so ts + 2 iterations always suffice.  The
precondition is essential: a hit with commit_ts = 0 wraps the unsigned
subtraction to u64::MAX and the loop never finishes, whatever the fuel. -/
theorem find_mvcc_infos_terminates (r : MvccReaderEnv) (key : Key) (ts : Nat)
    (hgood : ∀ ts' c w, r.seek_write key ts' = Except.ok (some (c, w)) →
      1 ≤ c ∧ c ≤ ts') :
    find_mvcc_infos_by_key r key ts (ts + 2) ≠ none
    ∧ ∀ fuel, find_mvcc_infos_by_key badReader key ts fuel = none := by
  constructor
  · have hterm := seekWritesAux_terminates r key hgood ts (ts + 2) [] (by omega)
    unfold find_mvcc_infos_by_key
    cases hl : r.load_lock key with
    | error e => simp
    | ok lock =>
      cases hsk : seekWritesAux r key (ts + 2) ts [] with
      | fuelOut => exact absurd hsk hterm
      | fail e => simp
      | done writes =>
        cases r.scan_values_in_default key <;> simp
  · intro fuel
    unfold find_mvcc_infos_by_key
    rw [show badReader.load_lock key = Except.ok none from rfl,
      seekWritesAux_badReader fuel key ts []]

/-- A reader with a single write at commit_ts = 9 visible from ts >= 9. -/
def goodReader : MvccReaderEnv where
  load_lock := fun _ => Except.ok none
  seek_write := fun _ ts => if 9 ≤ ts then Except.ok (some (9, 7)) else Except.ok none
  scan_values_in_default := fun _ => Except.ok [(9, 3)]

/-- Witness for C10: the good reader satisfies the precondition, and the
walk from ts = 20 terminates within ts + 2 = 22 iterations, while the bad
reader runs out of any fuel. -/
theorem find_mvcc_infos_terminates_witness :
    find_mvcc_infos_by_key goodReader 1 20 22 ≠ none
    ∧ find_mvcc_infos_by_key badReader 1 20 22 = none := by
  have h := find_mvcc_infos_terminates goodReader 1 20
    (by
      intro ts' c w hseek
      unfold goodReader at hseek
      simp only at hseek
      split at hseek
      · simp at hseek
        omega
      · simp at hseek)
  exact ⟨h.1, h.2 22⟩

end TikvProcess
